import Mathlib

/-!
# Debugger launcher (`src/main.cpp`): a shallow embedding

`main` does three things, and the development follows them in order:

* the option scan over `argv` (lines 32-64);
* the launch of the target: `SIGUSR1` is blocked, the process forks, the child
  installs a handler and waits in `sigsuspend` before `execvp` (lines 73-92);
* the parent: it builds a `Consumer` and one `Provider`, installs the exit
  handler, starts the consumer thread, runs `Provider::start` and tears down
  (lines 94-126).

Effects are recorded as lists of `Act`.  Calls into collaborators whose source is
not part of `main.cpp` (spdlog, `Consumer`, the providers) are recorded as
events; they are taken to return normally.
-/

namespace Debugger

/-! ## Signals -/

/-- Signal number of `SIGINT` on Linux. -/
def SIGINT : Nat := 2
/-- Signal number of `SIGKILL` on Linux. -/
def SIGKILL : Nat := 9
/-- Signal number of `SIGUSR1` on Linux. -/
def SIGUSR1 : Nat := 10
/-- Signal number of `SIGUSR2` on Linux. -/
def SIGUSR2 : Nat := 12
/-- Signal number of `SIGTERM` on Linux. -/
def SIGTERM : Nat := 15
/-- Signal number of `SIGSTOP` on Linux. -/
def SIGSTOP : Nat := 19

/-! ## Observable actions -/

/-- The two concrete providers `main` can construct (lines 99-102). -/
inductive ProviderKind
  | bpf
  | sysdig
  deriving DecidableEq, Repr

/-- One observable action of the debugger process or of the forked child. -/
inductive Act
  /-- Text written to `std::cerr`. -/
  | stderr (text : String)
  /-- Line 67, `spdlog::basic_logger_mt("file_logger", logs_file_path)`. -/
  | createLogger (path : String)
  /-- Line 68, `spdlog::set_default_logger`. -/
  | setDefaultLogger
  /-- Line 69, `spdlog::set_pattern`. -/
  | setPattern
  /-- A `SPDLOG_INFO` line. -/
  | logInfo (text : String)
  /-- Line 76, `sigprocmask(SIG_BLOCK, {sig}, &default_set)`. -/
  | sigBlock (sig : Nat)
  /-- Line 78, `fork()`. -/
  | fork
  /-- Lines 88 and 94, `sigprocmask(SIG_SETMASK, &default_set, nullptr)`. -/
  | sigRestore
  /-- Line 83, `sigaction(sig, &resume, nullptr)` in the child. -/
  | sigaction (sig : Nat)
  /-- Line 87, the child enters `sigsuspend(&default_set)`. -/
  | sigsuspend
  /-- A handler installed with `sigaction` or `std::signal` runs for `sig`. -/
  | caught (sig : Nat)
  /-- The process is terminated by the default action of `sig`. -/
  | killedBy (sig : Nat)
  /-- Line 90, `execvp(file, argv)`. -/
  | execvp (file : String) (argv : List String)
  /-- Line 96, `Consumer consumer(pid)`. -/
  | consumerCtor (pid : Int)
  /-- Lines 100 and 102, `new SysdigProvider(pid)` or `new BPFProvider(pid)`. -/
  | providerCtor (kind : ProviderKind) (pid : Int)
  /-- Line 104, the assignment to the global `exit_handler`. -/
  | assignExitHandler
  /-- Lines 110-111, `std::signal(sig, sig_handler)`. -/
  | registerHandler (sig : Nat)
  /-- Line 113, the consumer thread is created. -/
  | threadSpawn
  /-- Line 114, `consumer.start(*provider_ptr, hex)` is entered in the thread. -/
  | consumerStart (hex : Bool)
  /-- The call of line 114 returns; the thread function ends. -/
  | consumerStartReturned
  /-- Line 120, `provider_ptr->start()` is entered. -/
  | providerStart
  /-- The resume signal: `kill(pid, sig)` sent to the child. -/
  | kill (pid : Int) (sig : Nat)
  /-- The call of line 120 returns `ret`. -/
  | providerStartReturned (ret : Int)
  /-- A call of `consumer.stop()` (line 105). -/
  | consumerStop
  /-- A call of `provider_ptr->stop()` (lines 106 and 121). -/
  | providerStop
  /-- Line 122, `consumer_thread.join()` has returned. -/
  | join
  /-- Line 124, `delete provider_ptr`. -/
  | deleteProvider
  /-- A `return code` of `main`. -/
  | ret (code : Int)
  deriving DecidableEq, Repr

/-! ## The option scan (lines 22-64) -/

/-- Text of `print_usage` (lines 23-27). -/
def usageText : String :=
  "Usage: debugger [OPTION...] <cmd> <arg1> <arg2>\n" ++
  "    --help               Print this message\n" ++
  "    --sysdig             Use sysdig as provider instead of bpf\n" ++
  "    -logp logs-path      Set custom path to logs output file\n"

/-- Effect of `print_usage()` (lines 22-28). -/
def print_usage : List Act := [Act.stderr usageText]

/-- How the `while (true)` loop of lines 37-64 ends. -/
inductive Scan
  /-- Lines 38-42: malformed arguments, `print_usage(); return 1`. -/
  | malformed
  /-- Lines 57-61: unknown argument `arg`, message, `print_usage(); return 1`. -/
  | unknown (arg : String)
  /-- Lines 54-56: `--help`, `print_usage(); return 0`. -/
  | help
  /-- Line 53 evaluated with `argv[0] == NULL`: `std::string` is constructed
  from a null pointer, which is undefined behaviour. -/
  | nullString
  /-- Line 46: `break` with `argv` pointing at the command. -/
  | command (use_sysdig : Bool) (logs_file_path : String) (argv : List String)
  deriving DecidableEq, Repr

/-- The loop of lines 37-64.  The list is what `argv` points at (`argc` is its
length, and the entry after the last one is the null pointer that ends `argv`);
`use_sysdig` and `logs_file_path` are the two locals the loop updates. -/
def scan (use_sysdig : Bool) (logs_file_path : String) : List String → Scan
  | [] => Scan.malformed
  | arg :: rest =>
    match arg.data with
    | [] => Scan.malformed
    | c :: _ =>
      if c ≠ '-' then Scan.command use_sysdig logs_file_path (arg :: rest)
      else if arg = "--sysdig" then scan true logs_file_path rest
      else if arg = "-logp" then
        match rest with
        | [] => Scan.nullString
        | value :: rest' => scan use_sysdig value rest'
      else if arg = "--help" then Scan.help
      else Scan.unknown arg

/-- What `main` has done when it leaves through the option scan or reaches the
`fork()` of line 78. -/
inductive Start
  /-- `main` returned `code` after the actions `out`. -/
  | exited (out : List Act) (code : Int)
  /-- `main` ran into undefined behaviour after the actions `out`. -/
  | undefinedBehaviour (out : List Act)
  /-- `main` executed `out`, the last action being `fork()`; `use_sysdig` and
  `argv` are the locals both processes continue with. -/
  | forked (out : List Act) (use_sysdig : Bool) (argv : List String)
  deriving DecidableEq, Repr

/-- Lines 32-78 of `main`.  `argv` is the full argument vector (program name
first, line 36 skips it); `defaultLogs` is the value of
`std::string(LOGSDIR) + "/logs_" + std::to_string(time(NULL)) + ".txt"`, which
depends on a build macro and on the clock. -/
def main (defaultLogs : String) (argv : List String) : Start :=
  match scan false defaultLogs (argv.drop 1) with
  | Scan.malformed => Start.exited print_usage 1
  | Scan.unknown arg =>
    Start.exited (Act.stderr ("Unknown argument " ++ arg ++ "\n") :: print_usage) 1
  | Scan.help => Start.exited print_usage 0
  | Scan.nullString => Start.undefinedBehaviour []
  | Scan.command use_sysdig logs_file_path cmd =>
    Start.forked
      [Act.createLogger logs_file_path, Act.setDefaultLogger, Act.setPattern,
       Act.logInfo "Starting debugger execution", Act.sigBlock SIGUSR1, Act.fork]
      use_sysdig cmd

/-! ## The forked child (lines 79-92) and its signals

The child is a small sequential program; signals reach it from outside at any
moment.  A run is driven by a schedule of `Ev`: either the child executes its
next statement, or a signal is generated for it.  The signal rules are those of
Linux: a blocked signal stays pending whatever its disposition, an unblocked one
is delivered at once, `sigsuspend` returns once a handler has run, and `SIGKILL`
and `SIGSTOP` can be neither blocked nor caught.  Stop and continue actions only
delay the child, which a schedule expresses by not letting it step. -/

/-- Disposition of a signal. -/
inductive Disp
  | dfl
  | ign
  | handler
  deriving DecidableEq, Repr

/-- Signals that can be neither blocked nor caught nor ignored. -/
def unblockable (s : Nat) : Bool := s == SIGKILL || s == SIGSTOP

/-- Whether the default action of signal `s` terminates the process (on Linux
all do except `SIGCHLD`, `SIGCONT`, the stop signals, `SIGURG`, `SIGWINCH`). -/
def defaultTerminates (s : Nat) : Bool :=
  !(s == 17 || s == 18 || s == 19 || s == 20 || s == 21 || s == 22 || s == 23 || s == 28)

/-- Signal state of the debugger process when `main` is entered. -/
structure SigEnv where
  /-- The blocked signals. -/
  mask : List Nat
  /-- The dispositions. -/
  disp : Nat → Disp

/-- Where the child is in lines 83-91. -/
inductive ChildPc
  /-- Before line 83. -/
  | atSigaction
  /-- Before line 85. -/
  | atLog
  /-- Before line 87. -/
  | atSigsuspend
  /-- Inside `sigsuspend`. -/
  | waiting
  /-- Before line 88. -/
  | atSigprocmask
  /-- Before line 90. -/
  | atExecvp
  /-- Before line 91 (`execvp` failed). -/
  | atReturn
  /-- The image was replaced by the target program. -/
  | execed
  /-- The child returned from `main`. -/
  | exited
  /-- The child was terminated by a signal. -/
  | killed
  deriving DecidableEq, Repr

/-- State of the forked child. -/
structure Child where
  /-- Next statement. -/
  pc : ChildPc
  /-- Blocked signals. -/
  mask : List Nat
  /-- Mask to restore when `sigsuspend` returns. -/
  saved : List Nat
  /-- Pending signals. -/
  pending : List Nat
  /-- Dispositions. -/
  disp : Nat → Disp
  /-- The local `default_set` filled in by line 76. -/
  default_set : List Nat
  /-- The local `argv`, pointing at the command. -/
  argv : List String
  /-- Whether `execvp` will succeed. -/
  execOk : Bool
  /-- Actions so far. -/
  trace : List Act

/-- An event of a schedule. -/
inductive Ev
  /-- The child executes its next statement. -/
  | step
  /-- Signal `sig` is generated for the child. -/
  | send (sig : Nat)
  deriving DecidableEq, Repr

/-- The child right after `fork()` returned 0: line 76 has put the old mask
into `default_set` and added `SIGUSR1` to the mask, dispositions are inherited,
nothing is pending. -/
def forkChild (env : SigEnv) (execOk : Bool) (argv : List String) : Child :=
  { pc := ChildPc.atSigaction, mask := SIGUSR1 :: env.mask, saved := [], pending := [],
    disp := env.disp, default_set := env.mask, argv := argv, execOk := execOk, trace := [] }

/-- Whether the child still runs the code of `main`. -/
def Child.live (c : Child) : Bool :=
  !(c.pc == ChildPc.execed || c.pc == ChildPc.exited || c.pc == ChildPc.killed)

/-- Whether `s` is blocked. -/
def Child.blocked (c : Child) (s : Nat) : Bool := decide (s ∈ c.mask) && !unblockable s

/-- The disposition in force for `s`. -/
def Child.effDisp (c : Child) (s : Nat) : Disp :=
  if unblockable s then Disp.dfl else c.disp s

/-- Delivery of the unblocked signal `s` to a live child. -/
def deliver (c : Child) (s : Nat) : Child :=
  match c.effDisp s with
  | Disp.ign => c
  | Disp.handler =>
    if c.pc = ChildPc.waiting then
      { c with pc := ChildPc.atSigprocmask, mask := c.saved, trace := c.trace ++ [Act.caught s] }
    else { c with trace := c.trace ++ [Act.caught s] }
  | Disp.dfl =>
    if defaultTerminates s then
      { c with pc := ChildPc.killed, trace := c.trace ++ [Act.killedBy s] }
    else c

/-- After a change of the mask: the pending signals in `todo` that are no longer
blocked are delivered, one after the other. -/
def flush (c : Child) : List Nat → Child
  | [] => c
  | s :: todo =>
    if c.live && !c.blocked s then
      flush (deliver { c with pending := c.pending.filter (fun x => x ≠ s) } s) todo
    else flush c todo

/-- The child executes its next statement. -/
def childStep (c : Child) : Child :=
  match c.pc with
  | ChildPc.atSigaction =>
    { c with pc := ChildPc.atLog,
             disp := fun s => if s = SIGUSR1 then Disp.handler else c.disp s,
             trace := c.trace ++ [Act.sigaction SIGUSR1] }
  | ChildPc.atLog =>
    { c with pc := ChildPc.atSigsuspend,
             trace := c.trace ++ [Act.logInfo "Program process going to sleep"] }
  | ChildPc.atSigsuspend =>
    flush { c with pc := ChildPc.waiting, saved := c.mask, mask := c.default_set,
                   trace := c.trace ++ [Act.sigsuspend] } c.pending
  | ChildPc.waiting => c
  | ChildPc.atSigprocmask =>
    flush { c with pc := ChildPc.atExecvp, mask := c.default_set,
                   trace := c.trace ++ [Act.sigRestore] } c.pending
  | ChildPc.atExecvp =>
    { c with pc := if c.execOk then ChildPc.execed else ChildPc.atReturn,
             trace := c.trace ++ [Act.execvp (c.argv.headD "") c.argv] }
  | ChildPc.atReturn => { c with pc := ChildPc.exited, trace := c.trace ++ [Act.ret 1] }
  | ChildPc.execed => c
  | ChildPc.exited => c
  | ChildPc.killed => c

/-- Signal `s` is generated for the child. -/
def childSend (c : Child) (s : Nat) : Child :=
  if c.live then
    if c.blocked s then
      { c with pending := if s ∈ c.pending then c.pending else c.pending ++ [s] }
    else deliver c s
  else c

/-- One event of a schedule. -/
def childNext (c : Child) : Ev → Child
  | Ev.step => childStep c
  | Ev.send s => childSend c s

/-- The child after a whole schedule. -/
def childRun (c : Child) (evs : List Ev) : Child := evs.foldl childNext c

/-! ## The parent (lines 94-126)

The main thread runs a straight-line program.  The consumer thread created on
line 113 runs beside it, and signals are delivered to the process at any moment;
a run is driven by a schedule of `PEv`. -/

/-- The provider chosen on lines 99-102. -/
def providerKind (use_sysdig : Bool) : ProviderKind :=
  if use_sysdig then ProviderKind.sysdig else ProviderKind.bpf

/-- Modelled from the spec: the body of `Provider::start`, whose source
(`bpf_provider`, `sysdig_provider`) is not part of `src/`.  The spec lets the
parent signal the resume of the child after attach and has the execution of the
target "driven by the Provider's capture loop": the call sends the resume signal
`SIGUSR1` to the attached pid, captures, and returns the status `ret`. -/
def Provider.start (pid ret : Int) : List Act :=
  [Act.providerStart, Act.kill pid SIGUSR1, Act.providerStartReturned ret]

/-- Lines 94-126 in program order, for the main thread.  `pid` is what `fork()`
returned (not 0), `ret` is what `provider_ptr->start()` returns. -/
def parentProgram (use_sysdig : Bool) (pid ret : Int) : List Act :=
  [Act.sigRestore, Act.consumerCtor pid, Act.providerCtor (providerKind use_sysdig) pid,
   Act.assignExitHandler, Act.registerHandler SIGTERM, Act.registerHandler SIGINT,
   Act.threadSpawn] ++ Provider.start pid ret ++
  [Act.providerStop, Act.join, Act.deleteProvider, Act.ret ret]

/-- State of the thread of lines 113-118. -/
inductive ThreadSt
  /-- Line 113 not reached. -/
  | notSpawned
  /-- Created, `consumer.start` not yet entered. -/
  | spawned
  /-- Inside `consumer.start`. -/
  | running
  /-- The thread function has returned. -/
  | finished
  deriving DecidableEq, Repr

/-- Whether the parent still runs. -/
inductive PStatus
  /-- Running. -/
  | running
  /-- Terminated by the default action of a signal. -/
  | killed (sig : Nat)
  /-- `sig_handler` called an empty `exit_handler` (`std::bad_function_call`). -/
  | badCall
  /-- The exit handler called `provider_ptr->stop()` after `delete provider_ptr`
  (undefined behaviour). -/
  | deletedProviderUsed
  /-- `main` returned. -/
  | returned (code : Int)
  deriving DecidableEq, Repr

/-- State of the parent after `fork()`. -/
structure Parent where
  /-- The local `use_sysdig`. -/
  use_sysdig : Bool
  /-- The local `pid`. -/
  pid : Int
  /-- What `provider_ptr->start()` returns. -/
  ret : Int
  /-- Dispositions inherited for signals without a registered handler. -/
  disp : Nat → Disp
  /-- Number of actions of `parentProgram` the main thread has executed. -/
  pc : Nat
  /-- The consumer thread. -/
  thread : ThreadSt
  /-- Whether the global `exit_handler` holds the closure of line 104. -/
  exitHandler : Bool
  /-- Signals for which `sig_handler` is registered. -/
  handled : List Nat
  /-- Whether `provider_ptr` points at a provider that is constructed and not
  yet deleted. -/
  providerLive : Bool
  /-- Running, killed or returned. -/
  status : PStatus
  /-- Actions so far. -/
  trace : List Act

/-- An event of a parent schedule. -/
inductive PEv
  /-- The main thread executes its next action. -/
  | step
  /-- The consumer thread executes its next action. -/
  | thread
  /-- Signal `sig` is delivered to the process. -/
  | deliver (sig : Nat)
  deriving DecidableEq, Repr

/-- The parent right after `fork()` returned `pid`. -/
def forkParent (disp : Nat → Disp) (use_sysdig : Bool) (pid ret : Int) : Parent :=
  { use_sysdig := use_sysdig, pid := pid, ret := ret, disp := disp, pc := 0,
    thread := ThreadSt.notSpawned, exitHandler := false, handled := [],
    providerLive := false, status := PStatus.running, trace := [] }

/-- What an action of the main thread changes besides the trace. -/
def applyAct (p : Parent) : Act → Parent
  | Act.providerCtor _ _ => { p with providerLive := true }
  | Act.deleteProvider => { p with providerLive := false }
  | Act.assignExitHandler => { p with exitHandler := true }
  | Act.registerHandler s => { p with handled := s :: p.handled }
  | Act.threadSpawn => { p with thread := ThreadSt.spawned }
  | Act.ret code => { p with status := PStatus.returned code }
  | _ => p

/-- The main thread executes its next action; `join` waits for the thread. -/
def parentStep (p : Parent) : Parent :=
  match (parentProgram p.use_sysdig p.pid p.ret).get? p.pc with
  | none => p
  | some a =>
    if a = Act.join ∧ p.thread ≠ ThreadSt.finished then p
    else applyAct { p with pc := p.pc + 1, trace := p.trace ++ [a] } a

/-- The consumer thread executes its next action (lines 113-118). -/
def threadStep (p : Parent) : Parent :=
  match p.thread with
  | ThreadSt.spawned =>
    { p with thread := ThreadSt.running,
             trace := p.trace ++ [Act.consumerStart (if p.use_sysdig then true else false)] }
  | ThreadSt.running =>
    { p with thread := ThreadSt.finished, trace := p.trace ++ [Act.consumerStartReturned] }
  | _ => p

/-- Body of the closure of lines 104-107. -/
def exit_handler : List Act := [Act.consumerStop, Act.providerStop]

/-- Signal `s` is delivered to the parent: `sig_handler` (lines 18-20) if it is
registered for `s` (with glibc, `std::signal` leaves the handler installed after
a delivery), the inherited disposition otherwise.  The closure holds `consumer`
and `provider_ptr` by reference: it calls `consumer.stop()` and then `stop()` on
whatever `provider_ptr` points at, which is undefined behaviour once the
provider has been deleted. -/
def parentDeliver (p : Parent) (s : Nat) : Parent :=
  if s ∈ p.handled then
    if p.exitHandler then
      if p.providerLive then { p with trace := p.trace ++ Act.caught s :: exit_handler }
      else { p with status := PStatus.deletedProviderUsed,
                    trace := p.trace ++ Act.caught s :: exit_handler }
    else { p with status := PStatus.badCall }
  else
    match (if unblockable s then Disp.dfl else p.disp s) with
    | Disp.ign => p
    | Disp.handler => { p with trace := p.trace ++ [Act.caught s] }
    | Disp.dfl =>
      if defaultTerminates s then
        { p with status := PStatus.killed s, trace := p.trace ++ [Act.killedBy s] }
      else p

/-- One event of a parent schedule; nothing happens once the parent has stopped. -/
def parentNext (p : Parent) (e : PEv) : Parent :=
  if p.status = PStatus.running then
    match e with
    | PEv.step => parentStep p
    | PEv.thread => threadStep p
    | PEv.deliver s => parentDeliver p s
  else p

/-- The parent after a whole schedule. -/
def parentRun (p : Parent) (evs : List PEv) : Parent := evs.foldl parentNext p

/-! ## Shapes of argument lists, used to state the properties of the scan -/

/-- An option as the scan reads it. -/
inductive Opt
  /-- The argument `--sysdig`. -/
  | sysdig
  /-- The pair `-logp value`. -/
  | logp (value : String)
  deriving DecidableEq, Repr

/-- The arguments an option is written as. -/
def Opt.render : Opt → List String
  | Opt.sysdig => ["--sysdig"]
  | Opt.logp value => ["-logp", value]

/-- The arguments a sequence of options is written as. -/
def renderOpts : List Opt → List String
  | [] => []
  | o :: os => o.render ++ renderOpts os

/-- A command: a non-empty argument that does not start with `-`. -/
def isCommand (s : String) : Bool :=
  match s.data with
  | [] => false
  | c :: _ => c != '-'

/-- An argument that starts with `-` and is none of the three options. -/
def isUnknown (s : String) : Bool :=
  match s.data with
  | [] => false
  | c :: _ => c == '-' && s != "--sysdig" && s != "-logp" && s != "--help"

/-- The logs path after the options `opts`, starting from `path`. -/
def logsPath (path : String) : List Opt → String
  | [] => path
  | Opt.sysdig :: os => logsPath path os
  | Opt.logp value :: os => logsPath value os


/-! ## Vocabulary for the statements about traces and child states -/

/-- In the trace `l`, every action satisfying `Q` comes after some action
satisfying `P`. -/
def Guarded (P Q : Act → Prop) (l : List Act) : Prop :=
  ∀ l1 x l2, l = l1 ++ x :: l2 → Q x → ∃ y ∈ l1, P y

/-- The child has not yet called `sigsuspend` (it is before line 83, 85 or 87). -/
def ChildPc.early : ChildPc → Bool
  | ChildPc.atSigaction => true
  | ChildPc.atLog => true
  | ChildPc.atSigsuspend => true
  | _ => false

/-- The call of `sigsuspend` has returned in the child. -/
def ChildPc.past : ChildPc → Bool
  | ChildPc.atSigprocmask => true
  | ChildPc.atExecvp => true
  | ChildPc.atReturn => true
  | ChildPc.execed => true
  | ChildPc.exited => true
  | _ => false

/-- The mask the child runs with at each statement, given the original mask. -/
def expectedMask (m0 : List Nat) : ChildPc → Option (List Nat)
  | ChildPc.atSigaction => some (SIGUSR1 :: m0)
  | ChildPc.atLog => some (SIGUSR1 :: m0)
  | ChildPc.atSigsuspend => some (SIGUSR1 :: m0)
  | ChildPc.waiting => some m0
  | ChildPc.atSigprocmask => some (SIGUSR1 :: m0)
  | ChildPc.atExecvp => some m0
  | ChildPc.atReturn => some m0
  | _ => none

/-- The actions that can occur in a trace of the child started with `argv`. -/
def childAct (argv : List String) (a : Act) : Prop :=
  a = Act.sigaction SIGUSR1 ∨ a = Act.logInfo "Program process going to sleep" ∨
  a = Act.sigsuspend ∨ a = Act.sigRestore ∨ a = Act.execvp (argv.headD "") argv ∨
  a = Act.ret 1 ∨ (∃ s, a = Act.caught s) ∨ (∃ s, a = Act.killedBy s)

/-- What holds of the child in every state it can reach from `forkChild env _ argv`. -/
structure ChildInv (env : SigEnv) (argv : List String) (c : Child) : Prop where
  dset : c.default_set = env.mask
  args : c.argv = argv
  disp_other : ∀ s, s ≠ SIGUSR1 → c.disp s = env.disp s
  mask_ok : ∀ m, expectedMask env.mask c.pc = some m → c.mask = m
  saved_ok : c.pc = ChildPc.waiting → c.saved = SIGUSR1 :: env.mask
  handler_ok : c.pc ≠ ChildPc.atSigaction → c.live = true → c.disp SIGUSR1 = Disp.handler
  not_killed : Act.killedBy SIGUSR1 ∉ c.trace
  early_quiet : c.pc.early = true → Act.caught SIGUSR1 ∉ c.trace
  acts : ∀ a ∈ c.trace, childAct argv a
  caught_ok : ∀ s, Act.caught s ∈ c.trace → s = SIGUSR1 ∨ env.disp s = Disp.handler
  usr1_caught : Act.caught SIGUSR1 ∈ c.trace → SIGUSR1 ∉ env.mask
  woke : (c.pc.past = true ∨ ∃ f v, Act.execvp f v ∈ c.trace) → ∃ s, Act.caught s ∈ c.trace
  order : Guarded (fun a => ∃ s, a = Act.caught s) (fun a => ∃ f v, a = Act.execvp f v) c.trace


/-! ## Concrete environments -/

/-- Nothing blocked and every signal at its default disposition when `main` is
entered. -/
def envPlain : SigEnv := { mask := [], disp := fun _ => Disp.dfl }

/-- As `envPlain`, with a handler for `SIGUSR2` already installed when `main`
is entered (handlers are inherited by the forked child). -/
def envUsr2 : SigEnv :=
  { mask := [], disp := fun s => if s = SIGUSR2 then Disp.handler else Disp.dfl }

/-- As `envPlain`, with `SIGUSR1` blocked when `main` is entered. -/
def envBlocked : SigEnv := { mask := [SIGUSR1], disp := fun _ => Disp.dfl }


/-! ## Vocabulary for the statements about the parent -/

/-- The action is the construction of a provider. -/
def isProviderCtor : Act → Bool
  | Act.providerCtor _ _ => true
  | _ => false

/-- An action of the parent that can release the child or produce events: the
resume signal, the entry into `Provider::start`, the entry into
`Consumer::start`. -/
def isRelease : Act → Prop
  | Act.kill _ _ => True
  | Act.providerStart => True
  | Act.consumerStart _ => True
  | _ => False

/-- What holds of the parent in every state it can reach from
`forkParent _ u pid ret`. -/
structure ParentInv (u : Bool) (pid ret : Int) (p : Parent) : Prop where
  cfg_u : p.use_sysdig = u
  cfg_pid : p.pid = pid
  cfg_ret : p.ret = ret
  pc_le : p.pc ≤ 14
  exitH : p.exitHandler = decide (4 ≤ p.pc)
  handled : p.handled = if 6 ≤ p.pc then [SIGINT, SIGTERM] else if 5 ≤ p.pc then [SIGTERM] else []
  thread_ns : p.thread = ThreadSt.notSpawned ↔ p.pc < 7
  joined : 12 ≤ p.pc → p.thread = ThreadSt.finished
  live : p.providerLive = decide (3 ≤ p.pc ∧ p.pc ≤ 12)
  status_ok : p.status = PStatus.running ∨ (∃ s, p.status = PStatus.killed s) ∨
    p.status = PStatus.deletedProviderUsed ∨ (p.status = PStatus.returned ret ∧ p.pc = 14)
  pc_ret : p.pc = 14 → p.status = PStatus.returned ret
  main_sub : ((parentProgram u pid ret).take p.pc).Sublist p.trace
  ctors : p.trace.filter isProviderCtor = ((parentProgram u pid ret).take p.pc).filter isProviderCtor
  release : Guarded (fun a => a = Act.providerCtor (providerKind u) pid) isRelease p.trace
  assign_c : Guarded (fun a => a = Act.consumerCtor pid) (fun a => a = Act.assignExitHandler) p.trace
  assign_p : Guarded (fun a => a = Act.providerCtor (providerKind u) pid)
    (fun a => a = Act.assignExitHandler) p.trace
  register : Guarded (fun a => a = Act.assignExitHandler) (fun a => ∃ s, a = Act.registerHandler s)
    p.trace
  stops : Guarded (fun a => ∃ s, a = Act.caught s) (fun a => a = Act.consumerStop) p.trace
  last : p.pc = 14 → p.trace.getLast? = some (Act.ret ret)


/-! ## The option scan: lemmas -/

theorem scan_nil (u : Bool) (l : String) : scan u l [] = Scan.malformed := rfl

theorem scan_cons (u : Bool) (l arg : String) (rest : List String) :
    scan u l (arg :: rest) =
      match arg.data with
      | [] => Scan.malformed
      | c :: _ =>
        if c ≠ '-' then Scan.command u l (arg :: rest)
        else if arg = "--sysdig" then scan true l rest
        else if arg = "-logp" then
          match rest with
          | [] => Scan.nullString
          | value :: rest' => scan u value rest'
        else if arg = "--help" then Scan.help
        else Scan.unknown arg := by
  obtain ⟨data⟩ := arg
  cases data <;> cases rest <;> rfl

theorem scan_sysdig (u : Bool) (l : String) (rest : List String) :
    scan u l ("--sysdig" :: rest) = scan true l rest := by
  rw [scan_cons]; simp

theorem scan_logp (u : Bool) (l v : String) (rest : List String) :
    scan u l ("-logp" :: v :: rest) = scan u v rest := by
  rw [scan_cons]; simp

theorem scan_logp_last (u : Bool) (l : String) :
    scan u l ["-logp"] = Scan.nullString := by
  rw [scan_cons]; simp

theorem scan_help (u : Bool) (l : String) (rest : List String) :
    scan u l ("--help" :: rest) = Scan.help := by
  rw [scan_cons]; simp

theorem scan_empty (u : Bool) (l : String) (rest : List String) :
    scan u l ("" :: rest) = Scan.malformed := by
  rw [scan_cons]

theorem scan_command (u : Bool) (l c : String) (rest : List String) (h : isCommand c = true) :
    scan u l (c :: rest) = Scan.command u l (c :: rest) := by
  rw [scan_cons]
  unfold isCommand at h
  split at h
  · simp at h
  · rename_i ch t hd
    simp at h
    simp [h]

theorem scan_unknown (u : Bool) (l a : String) (rest : List String) (h : isUnknown a = true) :
    scan u l (a :: rest) = Scan.unknown a := by
  rw [scan_cons]
  unfold isUnknown at h
  split at h
  · simp at h
  · rename_i ch t hd
    simp at h
    obtain ⟨⟨⟨h1, h2⟩, h3⟩, h4⟩ := h
    simp [h1, h2, h3, h4]

theorem scan_renderOpts (opts : List Opt) (u : Bool) (l : String) (tail : List String) :
    scan u l (renderOpts opts ++ tail) =
      scan (u || decide (Opt.sysdig ∈ opts)) (logsPath l opts) tail := by
  induction opts generalizing u l with
  | nil => simp [renderOpts, logsPath]
  | cons o os ih =>
    cases o with
    | sysdig =>
      simp [renderOpts, Opt.render, logsPath, scan_sysdig, ih]
    | logp v =>
      simp [renderOpts, Opt.render, logsPath, scan_logp, ih]

/-- Every argument list on which the scan reaches a command is a sequence of
options followed by the command. -/
theorem scan_command_shape (n : Nat) : ∀ (args : List String) (u s : Bool) (l l' : String)
    (cmd : List String), args.length ≤ n → scan u l args = Scan.command s l' cmd →
    ∃ opts c rest, args = renderOpts opts ++ c :: rest ∧ isCommand c = true ∧
      cmd = c :: rest ∧ s = (u || decide (Opt.sysdig ∈ opts)) ∧ l' = logsPath l opts := by
  induction n with
  | zero =>
    intro args u s l l' cmd hlen h
    have : args = [] := List.length_eq_zero.mp (Nat.le_zero.mp hlen)
    subst this
    simp [scan_nil] at h
  | succ n ih =>
    intro args u s l l' cmd hlen h
    cases args with
    | nil => simp [scan_nil] at h
    | cons arg rest =>
      rw [scan_cons] at h
      split at h
      · simp at h
      · rename_i ch t hd
        by_cases hc : ch ≠ '-'
        · rw [if_pos hc] at h
          injection h with h1 h2 h3
          refine ⟨[], arg, rest, by simp [renderOpts], ?_, h3.symm, by simp [h1], by simp [logsPath, h2]⟩
          unfold isCommand
          simp only [hd]
          simpa using hc
        · rw [if_neg hc] at h
          by_cases hs : arg = "--sysdig"
          · rw [if_pos hs] at h
            have hl : rest.length ≤ n := by simp at hlen; omega
            obtain ⟨opts, c, r, e1, e2, e3, e4, e5⟩ := ih rest true s l l' cmd hl h
            refine ⟨Opt.sysdig :: opts, c, r, ?_, e2, e3, ?_, ?_⟩
            · simp [renderOpts, Opt.render, hs, e1]
            · simp [e4]
            · simp [logsPath, e5]
          · rw [if_neg hs] at h
            by_cases hp : arg = "-logp"
            · rw [if_pos hp] at h
              cases rest with
              | nil => simp at h
              | cons v rest' =>
                simp only at h
                have hl : rest'.length ≤ n := by simp at hlen; omega
                obtain ⟨opts, c, r, e1, e2, e3, e4, e5⟩ := ih rest' u s v l' cmd hl h
                refine ⟨Opt.logp v :: opts, c, r, ?_, e2, e3, ?_, ?_⟩
                · simp [renderOpts, Opt.render, hp, e1]
                · simp [e4]
                · simp [logsPath, e5]
            · rw [if_neg hp] at h
              by_cases hh : arg = "--help"
              · rw [if_pos hh] at h; simp at h
              · rw [if_neg hh] at h; simp at h


/-- Every argument list on which the scan ends in one of its two error exits
(lines 38-42 and 57-61) is a sequence of options followed by nothing, by an
empty string, or by an unknown argument that starts with `-`. -/
theorem scan_error_shape (n : Nat) : ∀ (args : List String) (u : Bool) (l : String),
    args.length ≤ n →
    (scan u l args = Scan.malformed ∨ ∃ a, scan u l args = Scan.unknown a) →
    ∃ opts tail, args = renderOpts opts ++ tail ∧
      (tail = [] ∨ ∃ a rest, tail = a :: rest ∧ (a = "" ∨ isUnknown a = true)) := by
  induction n with
  | zero =>
    intro args u l hlen _
    have : args = [] := List.length_eq_zero.mp (Nat.le_zero.mp hlen)
    exact ⟨[], [], by simp [this, renderOpts], Or.inl rfl⟩
  | succ n ih =>
    intro args u l hlen h
    cases args with
    | nil => exact ⟨[], [], by simp [renderOpts], Or.inl rfl⟩
    | cons arg rest =>
      rw [scan_cons] at h
      split at h
      · rename_i hd
        have harg : arg = "" := by
          apply String.ext
          simpa using hd
        exact ⟨[], arg :: rest, by simp [renderOpts], Or.inr ⟨arg, rest, rfl, Or.inl harg⟩⟩
      · rename_i ch t hd
        by_cases hc : ch ≠ '-'
        · rw [if_pos hc] at h
          simp at h
        · rw [if_neg hc] at h
          by_cases hs : arg = "--sysdig"
          · rw [if_pos hs] at h
            have hl : rest.length ≤ n := by simp at hlen; omega
            obtain ⟨opts, tail, e1, e2⟩ := ih rest true l hl h
            exact ⟨Opt.sysdig :: opts, tail, by simp [renderOpts, Opt.render, hs, e1], e2⟩
          · rw [if_neg hs] at h
            by_cases hp : arg = "-logp"
            · rw [if_pos hp] at h
              cases rest with
              | nil => simp at h
              | cons v rest' =>
                simp only at h
                have hl : rest'.length ≤ n := by simp at hlen; omega
                obtain ⟨opts, tail, e1, e2⟩ := ih rest' u v hl h
                exact ⟨Opt.logp v :: opts, tail, by simp [renderOpts, Opt.render, hp, e1], e2⟩
            · rw [if_neg hp] at h
              by_cases hh : arg = "--help"
              · rw [if_pos hh] at h; simp at h
              · refine ⟨[], arg :: rest, by simp [renderOpts], Or.inr ⟨arg, rest, rfl, Or.inr ?_⟩⟩
                unfold isUnknown
                simp only [hd]
                simp at hc
                simp [hc, hs, hp, hh]


/-! ## Traces: lemmas -/

theorem Guarded.nil (P Q : Act → Prop) : Guarded P Q [] := by
  intro l1 x l2 h
  simp at h

theorem Guarded.snoc {P Q : Act → Prop} {l : List Act} {a : Act} (h : Guarded P Q l)
    (ha : Q a → ∃ y ∈ l, P y) : Guarded P Q (l ++ [a]) := by
  intro l1 x l2 e hx
  rcases List.eq_nil_or_concat l2 with h2 | ⟨l2', b, h2⟩
  · subst h2
    have := List.append_inj' e (by simp)
    obtain ⟨e1, e2⟩ := this
    simp at e2
    subst e2
    subst e1
    exact ha hx
  · subst h2
    rw [List.concat_eq_append] at e
    have e' : l ++ [a] = (l1 ++ x :: l2') ++ [b] := by simpa using e
    have := List.append_inj' e' (by simp)
    exact h l1 x l2' this.1 hx

theorem Guarded.snoc_other {P Q : Act → Prop} {l : List Act} {a : Act} (h : Guarded P Q l)
    (ha : ¬ Q a) : Guarded P Q (l ++ [a]) :=
  h.snoc (fun hq => absurd hq ha)

/-! ## The child: lemmas -/

theorem childRun_append (c : Child) (evs evs' : List Ev) :
    childRun c (evs ++ evs') = childRun (childRun c evs) evs' := by
  simp [childRun, List.foldl_append]

theorem childInv_fork (env : SigEnv) (execOk : Bool) (argv : List String) :
    ChildInv env argv (forkChild env execOk argv) := by
  constructor <;> simp [forkChild, expectedMask, Child.live, ChildPc.early, ChildPc.past, Guarded.nil]

theorem usr1_blockable : unblockable SIGUSR1 = false := by decide

theorem childInv_pending {env : SigEnv} {argv : List String} {c : Child}
    (h : ChildInv env argv c) (p : List Nat) : ChildInv env argv { c with pending := p } := by
  obtain ⟨h1, h2, h3, h4, h5, h6, h7, h8, h9, h10, h11, h12, h13⟩ := h
  exact ⟨h1, h2, h3, h4, h5, h6, h7, h8, h9, h10, h11, h12, h13⟩

theorem live_expectedMask (m0 : List Nat) (c : Child) (h : c.live = true) :
    ∃ m, expectedMask m0 c.pc = some m ∧ ∀ s, s ∈ m0 → s ∈ m := by
  unfold Child.live at h
  cases hp : c.pc <;> simp [expectedMask, hp] at h ⊢ <;> intro s hs <;> exact Or.inr hs

theorem deliver_inv {env : SigEnv} {argv : List String} {c : Child} {s : Nat}
    (h : ChildInv env argv c) (hl : c.live = true) (hb : c.blocked s = false) :
    ChildInv env argv (deliver c s) := by
  obtain ⟨h1, h2, h3, h4, h5, h6, h7, h8, h9, h10, h11, h12, h13⟩ := h
  obtain ⟨m, hm, hsub⟩ := live_expectedMask env.mask c hl
  have hmask := h4 m hm
  have hnb : unblockable s = false → s ∉ c.mask := by
    intro hu
    simpa [Child.blocked, hu] using hb
  unfold deliver
  cases hd : c.effDisp s with
  | ign => exact ⟨h1, h2, h3, h4, h5, h6, h7, h8, h9, h10, h11, h12, h13⟩
  | handler =>
    have hu : unblockable s = false := by
      by_contra hu
      simp [Child.effDisp, hu] at hd
    have hds : c.disp s = Disp.handler := by simpa [Child.effDisp, hu] using hd
    have hsm : s ∉ c.mask := hnb hu
    have hcaught : s = SIGUSR1 ∨ env.disp s = Disp.handler := by
      by_cases e : s = SIGUSR1
      · exact Or.inl e
      · exact Or.inr (by rw [← h3 s e]; exact hds)
    have hnm0 : s ∉ env.mask := fun hin => hsm (hmask ▸ hsub s hin)
    simp only
    by_cases hw : c.pc = ChildPc.waiting
    · rw [if_pos hw]
      refine ⟨h1, h2, h3, ?_, ?_, ?_, ?_, ?_, ?_, ?_, ?_, ?_, ?_⟩
      · intro m' hm'
        simp [expectedMask] at hm'
        rw [← hm']; exact h5 hw
      · simp
      · intro _ _
        exact h6 (by simp [hw]) hl
      · simpa using h7
      · simp [ChildPc.early]
      · intro a ha
        simp at ha
        rcases ha with ha | ha
        · exact h9 a ha
        · subst ha; simp [childAct]
      · intro t ht
        simp at ht
        rcases ht with ht | ht
        · exact h10 t ht
        · subst ht; exact hcaught
      · intro ht
        simp at ht
        rcases ht with ht | ht
        · exact h11 ht
        · subst ht; exact hnm0
      · intro _
        exact ⟨s, by simp⟩
      · exact h13.snoc_other (by simp)
    · rw [if_neg hw]
      refine ⟨h1, h2, h3, h4, h5, h6, ?_, ?_, ?_, ?_, ?_, ?_, ?_⟩
      · simpa using h7
      · intro he
        simp only [List.mem_append, List.mem_singleton, not_or]
        refine ⟨h8 he, ?_⟩
        intro e
        injection e with e
        subst e
        have : c.mask = SIGUSR1 :: env.mask := by
          apply h4
          revert he
          cases c.pc <;> simp [ChildPc.early, expectedMask]
        rw [this] at hsm
        simp at hsm
      · intro a ha
        simp at ha
        rcases ha with ha | ha
        · exact h9 a ha
        · subst ha; simp [childAct]
      · intro t ht
        simp at ht
        rcases ht with ht | ht
        · exact h10 t ht
        · subst ht; exact hcaught
      · intro ht
        simp at ht
        rcases ht with ht | ht
        · exact h11 ht
        · subst ht; exact hnm0
      · intro _
        exact ⟨s, by simp⟩
      · exact h13.snoc_other (by simp)
  | dfl =>
    simp only
    by_cases ht : defaultTerminates s = true
    · rw [if_pos ht]
      refine ⟨h1, h2, h3, ?_, ?_, ?_, ?_, ?_, ?_, ?_, ?_, ?_, ?_⟩
      · simp [expectedMask]
      · simp
      · simp [Child.live]
      · simp only [List.mem_append, List.mem_singleton, not_or]
        refine ⟨h7, ?_⟩
        intro e
        injection e with e
        subst e
        have hsm : SIGUSR1 ∉ c.mask := hnb usr1_blockable
        have hdd : c.disp SIGUSR1 = Disp.dfl := by
          simpa [Child.effDisp, usr1_blockable] using hd
        by_cases hp : c.pc = ChildPc.atSigaction
        · have : c.mask = SIGUSR1 :: env.mask := h4 _ (by simp [hp, expectedMask])
          rw [this] at hsm
          simp at hsm
        · rw [h6 hp hl] at hdd
          cases hdd
      · simp [ChildPc.early]
      · intro a ha
        simp at ha
        rcases ha with ha | ha
        · exact h9 a ha
        · subst ha; simp [childAct]
      · intro t ht'
        simp at ht'
        exact h10 t ht'
      · intro ht'
        simp at ht'
        exact h11 ht'
      · intro hp
        simp [ChildPc.past] at hp
        obtain ⟨f, v, hfv⟩ := hp
        exact (h12 (Or.inr ⟨f, v, hfv⟩)).imp (fun t ht' => by simp [ht'])
      · exact h13.snoc_other (by simp)
    · rw [if_neg ht]
      exact ⟨h1, h2, h3, h4, h5, h6, h7, h8, h9, h10, h11, h12, h13⟩


theorem flush_inv {env : SigEnv} {argv : List String} (todo : List Nat) :
    ∀ {c : Child}, ChildInv env argv c → ChildInv env argv (flush c todo) := by
  induction todo with
  | nil => intro c h; exact h
  | cons s todo ih =>
    intro c h
    unfold flush
    by_cases hc : (c.live && !c.blocked s) = true
    · rw [if_pos hc]
      simp at hc
      apply ih
      apply deliver_inv (childInv_pending h _)
      · simpa [Child.live] using hc.1
      · simpa [Child.blocked] using hc.2
    · rw [if_neg hc]
      exact ih h

theorem childStep_inv {env : SigEnv} {argv : List String} {c : Child}
    (h : ChildInv env argv c) : ChildInv env argv (childStep c) := by
  have h' := h
  obtain ⟨h1, h2, h3, h4, h5, h6, h7, h8, h9, h10, h11, h12, h13⟩ := h'
  unfold childStep
  cases hp : c.pc with
  | atSigaction =>
    simp only
    refine ⟨h1, h2, ?_, ?_, ?_, ?_, ?_, ?_, ?_, ?_, ?_, ?_, ?_⟩
    · intro s hs; simp [hs, h3 s hs]
    · intro m hm
      simp [expectedMask] at hm
      exact h4 m (by simp [hp, expectedMask, hm])
    · simp
    · simp
    · simpa using h7
    · intro _
      simpa using h8 (by simp [hp, ChildPc.early])
    · intro a ha
      simp at ha
      rcases ha with ha | ha
      · exact h9 a ha
      · subst ha; simp [childAct]
    · intro t ht; simp at ht; exact h10 t ht
    · intro ht; simp at ht; exact h11 ht
    · intro hw
      simp [ChildPc.past] at hw
      obtain ⟨f, v, hfv⟩ := hw
      exact (h12 (Or.inr ⟨f, v, hfv⟩)).imp (fun t ht => by simp [ht])
    · exact h13.snoc_other (by simp)
  | atLog =>
    simp only
    refine ⟨h1, h2, h3, ?_, ?_, ?_, ?_, ?_, ?_, ?_, ?_, ?_, ?_⟩
    · intro m hm
      simp [expectedMask] at hm
      exact h4 m (by simp [hp, expectedMask, hm])
    · simp
    · intro _ _
      exact h6 (by simp [hp]) (by simp [Child.live, hp])
    · simpa using h7
    · intro _
      simpa using h8 (by simp [hp, ChildPc.early])
    · intro a ha
      simp at ha
      rcases ha with ha | ha
      · exact h9 a ha
      · subst ha; simp [childAct]
    · intro t ht; simp at ht; exact h10 t ht
    · intro ht; simp at ht; exact h11 ht
    · intro hw
      simp [ChildPc.past] at hw
      obtain ⟨f, v, hfv⟩ := hw
      exact (h12 (Or.inr ⟨f, v, hfv⟩)).imp (fun t ht => by simp [ht])
    · exact h13.snoc_other (by simp)
  | atSigsuspend =>
    simp only
    apply flush_inv
    refine ⟨h1, h2, h3, ?_, ?_, ?_, ?_, ?_, ?_, ?_, ?_, ?_, ?_⟩
    · intro m hm
      simp [expectedMask] at hm
      simp [← hm, h1]
    · intro _
      exact h4 _ (by simp [hp, expectedMask])
    · intro _ _
      exact h6 (by simp [hp]) (by simp [Child.live, hp])
    · simpa using h7
    · simp [ChildPc.early]
    · intro a ha
      simp at ha
      rcases ha with ha | ha
      · exact h9 a ha
      · subst ha; simp [childAct]
    · intro t ht; simp at ht; exact h10 t ht
    · intro ht; simp at ht; exact h11 ht
    · intro hw
      simp [ChildPc.past] at hw
      obtain ⟨f, v, hfv⟩ := hw
      exact (h12 (Or.inr ⟨f, v, hfv⟩)).imp (fun t ht => by simp [ht])
    · exact h13.snoc_other (by simp)
  | waiting => exact h
  | atSigprocmask =>
    simp only
    apply flush_inv
    obtain ⟨t0, ht0⟩ := h12 (Or.inl (by simp [hp, ChildPc.past]))
    refine ⟨h1, h2, h3, ?_, ?_, ?_, ?_, ?_, ?_, ?_, ?_, ?_, ?_⟩
    · intro m hm
      simp [expectedMask] at hm
      simp [← hm, h1]
    · simp
    · intro _ _
      exact h6 (by simp [hp]) (by simp [Child.live, hp])
    · simpa using h7
    · simp [ChildPc.early]
    · intro a ha
      simp at ha
      rcases ha with ha | ha
      · exact h9 a ha
      · subst ha; simp [childAct]
    · intro t ht; simp at ht; exact h10 t ht
    · intro ht; simp at ht; exact h11 ht
    · intro _
      exact ⟨t0, by simp [ht0]⟩
    · exact h13.snoc_other (by simp)
  | atExecvp =>
    simp only
    obtain ⟨t0, ht0⟩ := h12 (Or.inl (by simp [hp, ChildPc.past]))
    refine ⟨h1, h2, h3, ?_, ?_, ?_, ?_, ?_, ?_, ?_, ?_, ?_, ?_⟩
    · intro m hm
      cases he : c.execOk <;> simp [he, expectedMask] at hm
      rw [← hm]
      exact h4 _ (by simp [hp, expectedMask])
    · cases he : c.execOk <;> simp
    · intro _ _
      exact h6 (by simp [hp]) (by simp [Child.live, hp])
    · simpa using h7
    · cases he : c.execOk <;> simp [ChildPc.early]
    · intro a ha
      simp at ha
      rcases ha with ha | ha
      · exact h9 a ha
      · subst ha; simp [childAct, h2]
    · intro t ht; simp at ht; exact h10 t ht
    · intro ht; simp at ht; exact h11 ht
    · intro _
      exact ⟨t0, by simp [ht0]⟩
    · exact h13.snoc (fun _ => ⟨Act.caught t0, ht0, t0, rfl⟩)
  | atReturn =>
    simp only
    obtain ⟨t0, ht0⟩ := h12 (Or.inl (by simp [hp, ChildPc.past]))
    refine ⟨h1, h2, h3, ?_, ?_, ?_, ?_, ?_, ?_, ?_, ?_, ?_, ?_⟩
    · simp [expectedMask]
    · simp
    · simp [Child.live]
    · simpa using h7
    · simp [ChildPc.early]
    · intro a ha
      simp at ha
      rcases ha with ha | ha
      · exact h9 a ha
      · subst ha; simp [childAct]
    · intro t ht; simp at ht; exact h10 t ht
    · intro ht; simp at ht; exact h11 ht
    · intro _
      exact ⟨t0, by simp [ht0]⟩
    · exact h13.snoc_other (by simp)
  | execed => exact h
  | exited => exact h
  | killed => exact h

theorem childSend_inv {env : SigEnv} {argv : List String} {c : Child} (s : Nat)
    (h : ChildInv env argv c) : ChildInv env argv (childSend c s) := by
  unfold childSend
  by_cases hl : c.live = true
  · rw [if_pos hl]
    by_cases hb : c.blocked s = true
    · rw [if_pos hb]
      exact childInv_pending h _
    · rw [if_neg hb]
      exact deliver_inv h hl (by simpa using hb)
  · rw [if_neg hl]
    exact h

theorem childNext_inv {env : SigEnv} {argv : List String} {c : Child} (e : Ev)
    (h : ChildInv env argv c) : ChildInv env argv (childNext c e) := by
  cases e with
  | step => exact childStep_inv h
  | send s => exact childSend_inv s h

theorem childRun_inv (env : SigEnv) (argv : List String) (evs : List Ev) :
    ∀ {c : Child}, ChildInv env argv c → ChildInv env argv (childRun c evs) := by
  induction evs with
  | nil => intro c h; exact h
  | cons e evs ih =>
    intro c h
    exact ih (childNext_inv e h)


theorem deliver_pending (c : Child) (s : Nat) : (deliver c s).pending = c.pending := by
  unfold deliver
  split
  · rfl
  · split <;> rfl
  · split <;> rfl

theorem deliver_disp (c : Child) (s : Nat) : (deliver c s).disp = c.disp := by
  unfold deliver
  split
  · rfl
  · split <;> rfl
  · split <;> rfl

theorem deliver_pc (c : Child) (s : Nat) :
    ((deliver c s).pc = c.pc ∧ (deliver c s).mask = c.mask) ∨
      (deliver c s).pc = ChildPc.atSigprocmask ∨ (deliver c s).pc = ChildPc.killed := by
  unfold deliver
  split
  · simp
  · split <;> simp
  · split <;> simp

theorem deliver_handler_waiting (c : Child) (s : Nat) (hd : c.effDisp s = Disp.handler) :
    (deliver c s).pc ≠ ChildPc.waiting := by
  unfold deliver
  rw [hd]
  simp only
  by_cases hw : c.pc = ChildPc.waiting
  · rw [if_pos hw]; simp
  · rw [if_neg hw]; exact hw

theorem flush_not_waiting (todo : List Nat) :
    ∀ c : Child, c.pc ≠ ChildPc.waiting → (flush c todo).pc ≠ ChildPc.waiting := by
  induction todo with
  | nil => intro c h; exact h
  | cons s todo ih =>
    intro c h
    unfold flush
    split
    · apply ih
      rcases deliver_pc { c with pending := c.pending.filter (fun x => x ≠ s) } s with h1 | h1 | h1
      · rw [h1.1]; exact h
      · rw [h1]; simp
      · rw [h1]; simp
    · exact ih c h

theorem flush_not_early (todo : List Nat) :
    ∀ c : Child, c.pc.early = false → (flush c todo).pc.early = false := by
  induction todo with
  | nil => intro c h; exact h
  | cons s todo ih =>
    intro c h
    unfold flush
    split
    · apply ih
      rcases deliver_pc { c with pending := c.pending.filter (fun x => x ≠ s) } s with h1 | h1 | h1
      · rw [h1.1]; exact h
      · rw [h1]; rfl
      · rw [h1]; rfl
    · exact ih c h

/-- A pending signal with a handler that the mask of `sigsuspend` lets through
ends the wait. -/
theorem flush_wakes (s : Nat) (todo : List Nat) :
    ∀ c : Child, s ∈ todo → c.effDisp s = Disp.handler →
      (c.pc = ChildPc.waiting → c.blocked s = false) →
      (flush c todo).pc ≠ ChildPc.waiting := by
  induction todo with
  | nil => intro c h; simp at h
  | cons x todo ih =>
    intro c hin hd hb
    unfold flush
    by_cases hc : (c.live && !c.blocked x) = true
    · rw [if_pos hc]
      by_cases hx : x = s
      · subst hx
        apply flush_not_waiting
        apply deliver_handler_waiting
        exact hd
      · have hin' : s ∈ todo := by
          rcases List.mem_cons.mp hin with h | h
          · exact absurd h.symm hx
          · exact h
        apply ih _ hin'
        · simp only [Child.effDisp, deliver_disp] at hd ⊢
          exact hd
        · intro hw
          rcases deliver_pc { c with pending := c.pending.filter (fun y => y ≠ x) } x with h1 | h1 | h1
          · have hw' : c.pc = ChildPc.waiting := by rw [← hw]; exact h1.1.symm
            have := hb hw'
            simp only [Child.blocked, h1.2] at this ⊢
            exact this
          · rw [h1] at hw; cases hw
          · rw [h1] at hw; cases hw
    · rw [if_neg hc]
      by_cases hw : c.pc = ChildPc.waiting
      · have hnb := hb hw
        have hlive : c.live = true := by simp [Child.live, hw]
        rcases List.mem_cons.mp hin with h | h
        · subst h
          simp [hlive, hnb] at hc
        · exact ih c h hd hb
      · exact flush_not_waiting todo c hw

/-- While the child has not called `sigsuspend`, a `SIGUSR1` that was sent is
pending; and, when the original mask leaves `SIGUSR1` unblocked, the child is
never inside `sigsuspend` once a `SIGUSR1` was sent. -/
theorem child_history (env : SigEnv) (execOk : Bool) (argv : List String) (evs : List Ev) :
    ((childRun (forkChild env execOk argv) evs).pc.early = true → Ev.send SIGUSR1 ∈ evs →
        SIGUSR1 ∈ (childRun (forkChild env execOk argv) evs).pending) ∧
    (SIGUSR1 ∉ env.mask → (childRun (forkChild env execOk argv) evs).pc = ChildPc.waiting →
        Ev.send SIGUSR1 ∉ evs) := by
  induction evs using List.reverseRecOn with
  | nil => simp
  | append_singleton evs e ih =>
    have hinv := childRun_inv env argv evs (childInv_fork env execOk argv)
    rw [childRun_append]
    generalize childRun (forkChild env execOk argv) evs = c at ih hinv
    obtain ⟨ih1, ih2⟩ := ih
    simp only [childRun, List.foldl_cons, List.foldl_nil]
    cases e with
    | step =>
      simp only [childNext, List.mem_append, List.mem_singleton, or_false, reduceCtorEq]
      unfold childStep
      cases hp : c.pc with
      | atSigaction =>
        simp only
        exact ⟨fun _ h => ih1 (by simp [hp, ChildPc.early]) h, by simp⟩
      | atLog =>
        simp only
        exact ⟨fun _ h => ih1 (by simp [hp, ChildPc.early]) h, by simp⟩
      | atSigsuspend =>
        simp only
        constructor
        · intro h
          rw [flush_not_early] at h
          · cases h
          · rfl
        · intro hm hw hs
          have hpend := ih1 (by simp [hp, ChildPc.early]) hs
          refine flush_wakes SIGUSR1 c.pending _ hpend ?_ ?_ hw
          · simp only [Child.effDisp, usr1_blockable]
            exact hinv.handler_ok (by simp [hp]) (by simp [Child.live, hp])
          · intro _
            simp [Child.blocked, hinv.dset, hm]
      | waiting =>
        simp only
        exact ⟨fun h => by simp [hp, ChildPc.early] at h, fun hm _ => ih2 hm hp⟩
      | atSigprocmask =>
        simp only
        constructor
        · intro h
          rw [flush_not_early] at h
          · cases h
          · rfl
        · intro _ hw
          exact absurd hw (flush_not_waiting _ _ (by simp))
      | atExecvp =>
        simp only
        cases c.execOk <;> simp [ChildPc.early]
      | atReturn => simp [ChildPc.early]
      | execed => simp [hp, ChildPc.early]
      | exited => simp [hp, ChildPc.early]
      | killed => simp [hp, ChildPc.early]
    | send s =>
      simp only [childNext, List.mem_append, List.mem_singleton, Ev.send.injEq]
      unfold childSend
      by_cases hl : c.live = true
      · rw [if_pos hl]
        by_cases hb : c.blocked s = true
        · rw [if_pos hb]
          simp only
          constructor
          · intro he hs
            rcases hs with hs | hs
            · have := ih1 he hs
              split
              · exact this
              · simp [this]
            · subst hs
              split
              · assumption
              · simp
          · intro hm hw hs
            rcases hs with hs | hs
            · exact ih2 hm hw hs
            · subst hs
              have hmask : c.mask = env.mask := hinv.mask_ok _ (by simp [hw, expectedMask])
              simp [Child.blocked, hmask, hm] at hb
        · rw [if_neg hb]
          have hb' : c.blocked s = false := by simpa using hb
          rw [deliver_pending]
          constructor
          · intro he hs
            rcases deliver_pc c s with h1 | h1 | h1
            · rw [h1.1] at he
              rcases hs with hs | hs
              · exact ih1 he hs
              · subst hs
                have hmask : c.mask = SIGUSR1 :: env.mask := by
                  apply hinv.mask_ok
                  revert he
                  cases c.pc <;> simp [ChildPc.early, expectedMask]
                simp [Child.blocked, hmask, usr1_blockable] at hb'
            · rw [h1] at he; cases he
            · rw [h1] at he; cases he
          · intro hm hw hs
            rcases deliver_pc c s with h1 | h1 | h1
            · have hw' : c.pc = ChildPc.waiting := by rw [← hw]; exact h1.1.symm
              rcases hs with hs | hs
              · exact ih2 hm hw' hs
              · subst hs
                refine deliver_handler_waiting c SIGUSR1 ?_ hw
                simp only [Child.effDisp, usr1_blockable]
                exact hinv.handler_ok (by simp [hw']) hl
            · rw [h1] at hw; cases hw
            · rw [h1] at hw; cases hw
      · rw [if_neg hl]
        have hl' : c.live = false := by simpa using hl
        constructor
        · intro he
          revert hl' he
          unfold Child.live
          cases c.pc <;> simp [ChildPc.early]
        · intro _ hw
          rw [Child.live, hw] at hl'
          simp at hl'


theorem childRun_waiting (n : Nat) (c : Child) (h : c.pc = ChildPc.waiting) :
    childRun c (List.replicate n Ev.step) = c := by
  induction n with
  | zero => rfl
  | succ n ih =>
    have : childStep c = c := by unfold childStep; rw [h]
    simp only [List.replicate_succ, childRun, List.foldl_cons, childNext, this]
    exact ih

theorem usr1_mem_blocked (m : List Nat) (saved pending : List Nat) (d : Nat → Disp)
    (ds : List Nat) (argv : List String) (ok : Bool) (t : List Act) (pc : ChildPc) :
    Child.blocked { pc := pc, mask := SIGUSR1 :: m, saved := saved, pending := pending,
                    disp := d, default_set := ds, argv := argv, execOk := ok, trace := t }
      SIGUSR1 = true := by
  simp [Child.blocked, usr1_blockable]

/-- A resume signal sent after the child has executed `a` statements (any `a`)
lets the child call `execvp` within its next five steps. -/
theorem child_resumes (env : SigEnv) (execOk : Bool) (argv : List String) (a : Nat)
    (h : SIGUSR1 ∉ env.mask) :
    Act.execvp (argv.headD "") argv ∈
      (childRun (forkChild env execOk argv)
        (List.replicate a Ev.step ++ Ev.send SIGUSR1 :: List.replicate 5 Ev.step)).trace := by
  have hs : SIGUSR1 ≠ SIGKILL ∧ SIGUSR1 ≠ SIGSTOP := by decide
  rcases a with _ | _ | _ | n
  · cases execOk <;> simp [childRun, childNext, childStep, childSend, forkChild, flush, deliver, Child.live,
      Child.blocked, Child.effDisp, unblockable, h, hs]
  · cases execOk <;> simp [childRun, childNext, childStep, childSend, forkChild, flush, deliver, Child.live,
      Child.blocked, Child.effDisp, unblockable, h, hs]
  · cases execOk <;> simp [childRun, childNext, childStep, childSend, forkChild, flush, deliver, Child.live,
      Child.blocked, Child.effDisp, unblockable, h, hs, List.replicate]
  · have e : List.replicate (n + 1 + 1 + 1) Ev.step =
        [Ev.step, Ev.step, Ev.step] ++ List.replicate n Ev.step := by
      simp [List.replicate_succ]
    rw [e, List.append_assoc, childRun_append, childRun_append, childRun_waiting]
    · cases execOk <;> simp [childRun, childNext, childStep, childSend, forkChild, flush, deliver, Child.live,
        Child.blocked, Child.effDisp, unblockable, h, hs]
    · simp [childRun, childNext, childStep, forkChild, flush]


theorem deliver_caught (c : Child) (s t : Nat) (h : Act.caught t ∈ (deliver c s).trace) :
    Act.caught t ∈ c.trace ∨ t = s := by
  unfold deliver at h
  split at h
  · exact Or.inl h
  · split at h <;> simp at h <;> rcases h with h | h
    · exact Or.inl h
    · exact Or.inr h
    · exact Or.inl h
    · exact Or.inr h
  · split at h
    · simp at h; exact Or.inl h
    · exact Or.inl h

theorem flush_caught (todo : List Nat) : ∀ (c : Child) (t : Nat),
    Act.caught t ∈ (flush c todo).trace → Act.caught t ∈ c.trace ∨ t ∈ todo := by
  induction todo with
  | nil => intro c t h; exact Or.inl h
  | cons s todo ih =>
    intro c t h
    unfold flush at h
    split at h
    · rcases ih _ t h with h1 | h1
      · rcases deliver_caught _ s t h1 with h2 | h2
        · exact Or.inl h2
        · exact Or.inr (by simp [h2])
      · exact Or.inr (by simp [h1])
    · rcases ih _ t h with h1 | h1
      · exact Or.inl h1
      · exact Or.inr (by simp [h1])

theorem flush_pending (todo : List Nat) : ∀ (c : Child) (x : Nat),
    x ∈ (flush c todo).pending → x ∈ c.pending := by
  induction todo with
  | nil => intro c x h; exact h
  | cons s todo ih =>
    intro c x h
    unfold flush at h
    split at h
    · have := ih _ x h
      rw [deliver_pending] at this
      exact (List.mem_filter.mp this).1
    · exact ih _ x h

/-- Only signals that were sent are pending, and only signals that were sent
are caught. -/
theorem child_sent (env : SigEnv) (execOk : Bool) (argv : List String) (evs : List Ev) :
    (∀ s ∈ (childRun (forkChild env execOk argv) evs).pending, Ev.send s ∈ evs) ∧
    (∀ s, Act.caught s ∈ (childRun (forkChild env execOk argv) evs).trace →
        Ev.send s ∈ evs) := by
  induction evs using List.reverseRecOn with
  | nil => simp [childRun, forkChild]
  | append_singleton evs e ih =>
    rw [childRun_append]
    generalize childRun (forkChild env execOk argv) evs = c at ih
    obtain ⟨ih1, ih2⟩ := ih
    simp only [childRun, List.foldl_cons, List.foldl_nil]
    cases e with
    | step =>
      simp only [childNext, List.mem_append, List.mem_singleton, or_false, reduceCtorEq]
      unfold childStep
      cases hp : c.pc with
      | atSigaction => exact ⟨ih1, fun s h => ih2 s (by simpa using h)⟩
      | atLog => exact ⟨ih1, fun s h => ih2 s (by simpa using h)⟩
      | atSigsuspend =>
        simp only
        constructor
        · intro s h
          have h0 := flush_pending _ _ s h
          exact ih1 s h0
        · intro s h
          rcases flush_caught _ _ s h with h1 | h1
          · exact ih2 s (by simpa using h1)
          · exact ih1 s h1
      | waiting => exact ⟨ih1, ih2⟩
      | atSigprocmask =>
        simp only
        constructor
        · intro s h
          have h0 := flush_pending _ _ s h
          exact ih1 s h0
        · intro s h
          rcases flush_caught _ _ s h with h1 | h1
          · exact ih2 s (by simpa using h1)
          · exact ih1 s h1
      | atExecvp => exact ⟨ih1, fun s h => ih2 s (by simpa using h)⟩
      | atReturn => exact ⟨ih1, fun s h => ih2 s (by simpa using h)⟩
      | execed => exact ⟨ih1, ih2⟩
      | exited => exact ⟨ih1, ih2⟩
      | killed => exact ⟨ih1, ih2⟩
    | send s =>
      simp only [childNext, List.mem_append, List.mem_singleton, Ev.send.injEq]
      unfold childSend
      split
      · split
        · simp only
          constructor
          · intro x hx
            split at hx
            · exact Or.inl (ih1 x hx)
            · simp at hx
              rcases hx with hx | hx
              · exact Or.inl (ih1 x hx)
              · exact Or.inr hx
          · intro x hx
            exact Or.inl (ih2 x hx)
        · rw [deliver_pending]
          constructor
          · intro x hx
            exact Or.inl (ih1 x hx)
          · intro x hx
            rcases deliver_caught c s x hx with h1 | h1
            · exact Or.inl (ih2 x h1)
            · exact Or.inr h1
      · exact ⟨fun x hx => Or.inl (ih1 x hx), fun x hx => Or.inl (ih2 x hx)⟩

theorem flush_pc (todo : List Nat) : ∀ c : Child, c.pc ≠ ChildPc.waiting →
    (flush c todo).pc = c.pc ∨ (flush c todo).pc = ChildPc.killed := by
  induction todo with
  | nil => intro c _; exact Or.inl rfl
  | cons s todo ih =>
    intro c h
    unfold flush
    split
    · have hd : deliver { c with pending := c.pending.filter (fun x => x ≠ s) } s =
          deliver { c with pending := c.pending.filter (fun x => x ≠ s) } s := rfl
      have hpc : (deliver { c with pending := c.pending.filter (fun x => x ≠ s) } s).pc = c.pc ∨
          (deliver { c with pending := c.pending.filter (fun x => x ≠ s) } s).pc = ChildPc.killed := by
        unfold deliver
        split
        · exact Or.inl rfl
        · rw [if_neg (by simpa using h)]
          exact Or.inl rfl
        · split
          · exact Or.inr rfl
          · exact Or.inl rfl
      rcases hpc with h1 | h1
      · rcases ih _ (by rw [h1]; exact h) with h2 | h2
        · exact Or.inl (by rw [h2, h1])
        · exact Or.inr h2
      · rcases ih _ (by rw [h1]; simp) with h2 | h2
        · exact Or.inr (by rw [h2, h1])
        · exact Or.inr h2
    · exact ih c h

theorem childNext_past (c : Child) (e : Ev)
    (h : c.pc.past = true ∨ c.pc = ChildPc.killed) :
    (childNext c e).pc.past = true ∨ (childNext c e).pc = ChildPc.killed := by
  cases e with
  | step =>
    simp only [childNext]
    unfold childStep
    cases hp : c.pc with
    | atSigaction => simp [hp, ChildPc.past] at h
    | atLog => simp [hp, ChildPc.past] at h
    | atSigsuspend => simp [hp, ChildPc.past] at h
    | waiting => simp [hp, ChildPc.past] at h
    | atSigprocmask =>
      simp only
      rcases flush_pc c.pending
        { c with pc := ChildPc.atExecvp, mask := c.default_set, trace := c.trace ++ [Act.sigRestore] }
        (by simp) with h1 | h1
      · exact Or.inl (by rw [h1]; rfl)
      · exact Or.inr h1
    | atExecvp => cases c.execOk <;> simp [ChildPc.past]
    | atReturn => simp [ChildPc.past]
    | execed => simp [hp, ChildPc.past]
    | exited => simp [hp, ChildPc.past]
    | killed => simp [hp]
  | send s =>
    simp only [childNext]
    unfold childSend
    split
    · split
      · exact h
      · rcases deliver_pc c s with h1 | h1 | h1
        · rw [h1.1]; exact h
        · exact Or.inl (by rw [h1]; rfl)
        · exact Or.inr h1
    · exact h

theorem childRun_past (evs : List Ev) : ∀ c : Child,
    (c.pc.past = true ∨ c.pc = ChildPc.killed) →
    ((childRun c evs).pc.past = true ∨ (childRun c evs).pc = ChildPc.killed) := by
  induction evs with
  | nil => intro c h; exact h
  | cons e evs ih =>
    intro c h
    exact ih _ (childNext_past c e h)

theorem childStep_atExecvp (d : Child) (h : d.pc = ChildPc.atExecvp) :
    Act.execvp (d.argv.headD "") d.argv ∈ (childStep d).trace := by
  unfold childStep
  rw [h]
  simp

theorem childStep_killed (d : Child) (h : d.pc = ChildPc.killed) : childStep d = d := by
  unfold childStep
  rw [h]

theorem flush_argv (todo : List Nat) : ∀ d : Child, (flush d todo).argv = d.argv := by
  induction todo with
  | nil => intro d; rfl
  | cons s todo ih =>
    intro d
    unfold flush
    split
    · rw [ih]
      unfold deliver
      split
      · rfl
      · split <;> rfl
      · split <;> rfl
    · exact ih d

/-- Once `sigsuspend` has returned, the next two statements are the
`sigprocmask` of line 88 and the `execvp` of line 90, unless a signal kills
the child in between. -/
theorem child_proceeds (c : Child) (h : c.pc = ChildPc.atSigprocmask) :
    (childRun c [Ev.step, Ev.step]).pc = ChildPc.killed ∨
      Act.execvp (c.argv.headD "") c.argv ∈ (childRun c [Ev.step, Ev.step]).trace := by
  simp only [childRun, List.foldl_cons, List.foldl_nil, childNext]
  have h1 : childStep c = flush
      { c with pc := ChildPc.atExecvp, mask := c.default_set, trace := c.trace ++ [Act.sigRestore] }
      c.pending := by
    unfold childStep
    rw [h]
  have ha : (childStep c).argv = c.argv := by rw [h1, flush_argv]
  rcases flush_pc c.pending
      { c with pc := ChildPc.atExecvp, mask := c.default_set, trace := c.trace ++ [Act.sigRestore] }
      (by simp) with h2 | h2
  · right
    rw [← h1] at h2
    rw [← ha]
    exact childStep_atExecvp _ h2
  · left
    rw [← h1] at h2
    rw [childStep_killed _ h2]
    exact h2


/-! ## The parent: lemmas -/

theorem parentRun_append (p : Parent) (evs evs' : List PEv) :
    parentRun p (evs ++ evs') = parentRun (parentRun p evs) evs' := by
  simp [parentRun, List.foldl_append]

theorem parentInv_fork (disp : Nat → Disp) (u : Bool) (pid ret : Int) :
    ParentInv u pid ret (forkParent disp u pid ret) := by
  constructor <;> simp [forkParent, Guarded.nil]

theorem Guarded.append_other {P Q : Act → Prop} {l : List Act} (l' : List Act)
    (h : Guarded P Q l) (hl : ∀ a ∈ l', ¬ Q a) : Guarded P Q (l ++ l') := by
  induction l' using List.reverseRecOn with
  | nil => simpa using h
  | append_singleton l' a ih =>
    rw [← List.append_assoc]
    apply Guarded.snoc_other
    · exact ih (fun b hb => hl b (by simp [hb]))
    · exact hl a (by simp)

theorem parentProgram_get (u : Bool) (pid ret : Int) (k : Nat) (a : Act)
    (h : (parentProgram u pid ret).get? k = some a) :
    (k = 0 ∧ a = Act.sigRestore) ∨ (k = 1 ∧ a = Act.consumerCtor pid) ∨
    (k = 2 ∧ a = Act.providerCtor (providerKind u) pid) ∨ (k = 3 ∧ a = Act.assignExitHandler) ∨
    (k = 4 ∧ a = Act.registerHandler SIGTERM) ∨ (k = 5 ∧ a = Act.registerHandler SIGINT) ∨
    (k = 6 ∧ a = Act.threadSpawn) ∨ (k = 7 ∧ a = Act.providerStart) ∨
    (k = 8 ∧ a = Act.kill pid SIGUSR1) ∨ (k = 9 ∧ a = Act.providerStartReturned ret) ∨
    (k = 10 ∧ a = Act.providerStop) ∨ (k = 11 ∧ a = Act.join) ∨
    (k = 12 ∧ a = Act.deleteProvider) ∨ (k = 13 ∧ a = Act.ret ret) := by
  have hk : k < 14 := by
    by_contra hk
    have : (parentProgram u pid ret).length ≤ k := by
      simp [parentProgram, Provider.start]; omega
    rw [List.get?_eq_none.mpr this] at h
    cases h
  interval_cases k <;> simp [parentProgram, Provider.start] at h <;> simp [h]


theorem take_succ_of_get {α : Type} (l : List α) (k : Nat) (a : α) (h : l.get? k = some a) :
    l.take (k + 1) = l.take k ++ [a] := by
  rw [List.take_succ]
  simp only [List.get?_eq_getElem?] at h
  rw [h]
  rfl

theorem applyAct_trace (p : Parent) (a : Act) : (applyAct p a).trace = p.trace := by
  cases a <;> rfl

theorem applyAct_pc (p : Parent) (a : Act) : (applyAct p a).pc = p.pc := by
  cases a <;> rfl

theorem applyAct_use_sysdig (p : Parent) (a : Act) : (applyAct p a).use_sysdig = p.use_sysdig := by
  cases a <;> rfl

theorem applyAct_pid (p : Parent) (a : Act) : (applyAct p a).pid = p.pid := by
  cases a <;> rfl

theorem applyAct_ret (p : Parent) (a : Act) : (applyAct p a).ret = p.ret := by
  cases a <;> rfl

/-- The main thread either does not move (it is past its last action or waits
in `join`), or executes the action at its program counter. -/
theorem parentStep_cases (p : Parent) :
    parentStep p = p ∨
    ∃ a, (parentProgram p.use_sysdig p.pid p.ret).get? p.pc = some a ∧
      (a = Act.join → p.thread = ThreadSt.finished) ∧
      parentStep p = applyAct { p with pc := p.pc + 1, trace := p.trace ++ [a] } a := by
  unfold parentStep
  split
  · exact Or.inl rfl
  · rename_i a ha
    by_cases hj : a = Act.join ∧ p.thread ≠ ThreadSt.finished
    · rw [if_pos hj]; exact Or.inl rfl
    · rw [if_neg hj]
      refine Or.inr ⟨a, ha, ?_, rfl⟩
      intro e
      by_contra hf
      exact hj ⟨e, hf⟩

set_option maxHeartbeats 1000000 in
theorem parentStep_inv {u : Bool} {pid ret : Int} {p : Parent}
    (h : ParentInv u pid ret p) (hr : p.status = PStatus.running) :
    ParentInv u pid ret (parentStep p) := by
  rcases parentStep_cases p with h0 | ⟨a, ha, hj, h0⟩
  · rw [h0]; exact h
  · rw [h0]
    obtain ⟨h1, h2, h3, h4, h5, h6, h7, h8, hL, h9, h10, h11, h12, h13, h14, h15, h16, h17, h18⟩ := h
    rw [h1, h2, h3] at ha
    have hmem : ∀ x, x ∈ (parentProgram u pid ret).take p.pc → x ∈ p.trace :=
      fun x hx => h11.subset hx
    have htake := take_succ_of_get _ _ _ ha
    have hsub : ((parentProgram u pid ret).take (p.pc + 1)).Sublist (p.trace ++ [a]) := by
      rw [htake]
      exact List.Sublist.append h11 (List.Sublist.refl _)
    have hfil : (p.trace ++ [a]).filter isProviderCtor =
        ((parentProgram u pid ret).take (p.pc + 1)).filter isProviderCtor := by
      rw [htake, List.filter_append, List.filter_append, h12]
    rcases parentProgram_get u pid ret p.pc a ha with
      ⟨hk, e⟩ | ⟨hk, e⟩ | ⟨hk, e⟩ | ⟨hk, e⟩ | ⟨hk, e⟩ | ⟨hk, e⟩ | ⟨hk, e⟩ | ⟨hk, e⟩ | ⟨hk, e⟩ |
      ⟨hk, e⟩ | ⟨hk, e⟩ | ⟨hk, e⟩ | ⟨hk, e⟩ | ⟨hk, e⟩
    all_goals subst e
    all_goals
      rw [hk] at hmem
      simp only [parentProgram, Provider.start, List.take, List.cons_append, List.nil_append,
        List.mem_cons, List.mem_singleton] at hmem
    all_goals
      refine ⟨h1, h2, h3, ?_, ?_, ?_, ?_, ?_, ?_, ?_, ?_, hsub, hfil, ?_, ?_, ?_, ?_, ?_, ?_⟩
    all_goals try (simp only [applyAct]; simp [hk, h5, h6, h7, hL, hr]; done)
    all_goals try
      (simp only [applyAct]
       apply Guarded.snoc_other <;> first | assumption | (simp [isRelease]; done))
    all_goals try
      (simp only [applyAct]
       apply Guarded.snoc
       · assumption
       · intro _
         refine ⟨_, ?_, rfl⟩
         apply hmem
         simp)
    all_goals try (simp only [applyAct]; intro _; exact hj rfl)
    all_goals try (simp only [applyAct]; intro _; exact h8 (by omega))


theorem providerCtor_mem_take (u : Bool) (pid ret : Int) (k : Nat) (hk : 3 ≤ k) :
    Act.providerCtor (providerKind u) pid ∈ (parentProgram u pid ret).take k := by
  obtain ⟨j, rfl⟩ : ∃ j, k = j + 3 := ⟨k - 3, by omega⟩
  simp [parentProgram, List.take]

theorem threadStep_inv {u : Bool} {pid ret : Int} {p : Parent}
    (h : ParentInv u pid ret p) (hr : p.status = PStatus.running) :
    ParentInv u pid ret (threadStep p) := by
  have h' := h
  obtain ⟨h1, h2, h3, h4, h5, h6, h7, h8, hL, h9, h10, h11, h12, h13, h14, h15, h16, h17, h18⟩ := h'
  have hne : p.pc ≠ 14 := by
    intro e
    rw [h10 e] at hr
    cases hr
  unfold threadStep
  cases ht : p.thread with
  | notSpawned => exact h
  | finished => exact h
  | spawned =>
    have hpc : 7 ≤ p.pc := by
      by_contra hc
      have := h7.mpr (by omega)
      rw [ht] at this
      cases this
    have hpc2 : p.pc < 12 := by
      by_contra hc
      have := h8 (by omega)
      rw [ht] at this
      cases this
    refine ⟨h1, h2, h3, h4, h5, h6, ?_, ?_, hL, h9, h10, ?_, ?_, ?_, ?_, ?_, ?_, ?_, ?_⟩
    · simp; omega
    · intro hc; simp only at hc; omega
    · exact h11.trans (List.sublist_append_left _ _)
    · simp [List.filter_append, isProviderCtor, h12]
    · apply Guarded.snoc h13
      intro _
      exact ⟨_, h11.subset (providerCtor_mem_take u pid ret p.pc (by omega)), rfl⟩
    · exact h14.snoc_other (by simp)
    · exact h15.snoc_other (by simp)
    · exact h16.snoc_other (by simp)
    · exact h17.snoc_other (by simp)
    · intro e; exact absurd e hne
  | running =>
    have hpc : 7 ≤ p.pc := by
      by_contra hc
      have := h7.mpr (by omega)
      rw [ht] at this
      cases this
    refine ⟨h1, h2, h3, h4, h5, h6, ?_, ?_, hL, h9, h10, ?_, ?_, ?_, ?_, ?_, ?_, ?_, ?_⟩
    · simp; omega
    · intro _; rfl
    · exact h11.trans (List.sublist_append_left _ _)
    · simp [List.filter_append, isProviderCtor, h12]
    · exact h13.snoc_other (by simp [isRelease])
    · exact h14.snoc_other (by simp)
    · exact h15.snoc_other (by simp)
    · exact h16.snoc_other (by simp)
    · exact h17.snoc_other (by simp)
    · intro e; exact absurd e hne

theorem parentDeliver_inv {u : Bool} {pid ret : Int} {p : Parent} (s : Nat)
    (h : ParentInv u pid ret p) (hr : p.status = PStatus.running) :
    ParentInv u pid ret (parentDeliver p s) := by
  have h' := h
  obtain ⟨h1, h2, h3, h4, h5, h6, h7, h8, hL, h9, h10, h11, h12, h13, h14, h15, h16, h17, h18⟩ := h'
  have hne : p.pc ≠ 14 := by
    intro e
    rw [h10 e] at hr
    cases hr
  unfold parentDeliver
  by_cases hs : s ∈ p.handled
  · rw [if_pos hs]
    have hpc : 5 ≤ p.pc := by
      by_contra hc
      rw [h6] at hs
      have h65 : ¬ 6 ≤ p.pc := by omega
      simp [h65, hc] at hs
    have he : p.exitHandler = true := by rw [h5]; simp; omega
    rw [if_pos he]
    have hstops : Guarded (fun a => ∃ s, a = Act.caught s) (fun a => a = Act.consumerStop)
        (p.trace ++ Act.caught s :: exit_handler) := by
      have e : p.trace ++ Act.caught s :: exit_handler =
          ((p.trace ++ [Act.caught s]) ++ [Act.consumerStop]) ++ [Act.providerStop] := by
        simp [exit_handler]
      rw [e]
      apply Guarded.snoc_other _ (by simp)
      apply Guarded.snoc
      · exact h17.snoc_other (by simp)
      · intro _
        exact ⟨Act.caught s, by simp, s, rfl⟩
    split
    · refine ⟨h1, h2, h3, h4, h5, h6, h7, h8, hL, h9, h10, ?_, ?_, ?_, ?_, ?_, ?_, hstops, ?_⟩
      · exact h11.trans (List.sublist_append_left _ _)
      · simp [List.filter_append, isProviderCtor, exit_handler, h12]
      · exact h13.append_other _ (by simp [exit_handler, isRelease])
      · exact h14.append_other _ (by simp [exit_handler])
      · exact h15.append_other _ (by simp [exit_handler])
      · exact h16.append_other _ (by simp [exit_handler])
      · intro e; exact absurd e hne
    · refine ⟨h1, h2, h3, h4, h5, h6, h7, h8, hL, ?_, ?_, ?_, ?_, ?_, ?_, ?_, ?_, hstops, ?_⟩
      · exact Or.inr (Or.inr (Or.inl rfl))
      · intro e; exact absurd e hne
      · exact h11.trans (List.sublist_append_left _ _)
      · simp [List.filter_append, isProviderCtor, exit_handler, h12]
      · exact h13.append_other _ (by simp [exit_handler, isRelease])
      · exact h14.append_other _ (by simp [exit_handler])
      · exact h15.append_other _ (by simp [exit_handler])
      · exact h16.append_other _ (by simp [exit_handler])
      · intro e; exact absurd e hne
  · rw [if_neg hs]
    split
    · exact h
    · refine ⟨h1, h2, h3, h4, h5, h6, h7, h8, hL, h9, h10, ?_, ?_, ?_, ?_, ?_, ?_, ?_, ?_⟩
      · exact h11.trans (List.sublist_append_left _ _)
      · simp [List.filter_append, isProviderCtor, h12]
      · exact h13.snoc_other (by simp [isRelease])
      · exact h14.snoc_other (by simp)
      · exact h15.snoc_other (by simp)
      · exact h16.snoc_other (by simp)
      · exact h17.snoc_other (by simp)
      · intro e; exact absurd e hne
    · split
      · refine ⟨h1, h2, h3, h4, h5, h6, h7, h8, hL, ?_, ?_, ?_, ?_, ?_, ?_, ?_, ?_, ?_, ?_⟩
        · exact Or.inr (Or.inl ⟨s, rfl⟩)
        · intro e; exact absurd e hne
        · exact h11.trans (List.sublist_append_left _ _)
        · simp [List.filter_append, isProviderCtor, h12]
        · exact h13.snoc_other (by simp [isRelease])
        · exact h14.snoc_other (by simp)
        · exact h15.snoc_other (by simp)
        · exact h16.snoc_other (by simp)
        · exact h17.snoc_other (by simp)
        · intro e; exact absurd e hne
      · exact h

theorem parentNext_inv {u : Bool} {pid ret : Int} {p : Parent} (e : PEv)
    (h : ParentInv u pid ret p) : ParentInv u pid ret (parentNext p e) := by
  unfold parentNext
  by_cases hr : p.status = PStatus.running
  · rw [if_pos hr]
    cases e with
    | step => exact parentStep_inv h hr
    | thread => exact threadStep_inv h hr
    | deliver s => exact parentDeliver_inv s h hr
  · rw [if_neg hr]
    exact h

theorem parentRun_inv (u : Bool) (pid ret : Int) (evs : List PEv) :
    ∀ {p : Parent}, ParentInv u pid ret p → ParentInv u pid ret (parentRun p evs) := by
  induction evs with
  | nil => intro p h; exact h
  | cons e evs ih =>
    intro p h
    exact ih (parentNext_inv e h)


theorem threadStep_pc (p : Parent) : (threadStep p).pc = p.pc := by
  unfold threadStep
  split <;> rfl

theorem threadStep_status (p : Parent) : (threadStep p).status = p.status := by
  unfold threadStep
  split <;> rfl

theorem parentDeliver_pc (p : Parent) (s : Nat) : (parentDeliver p s).pc = p.pc := by
  unfold parentDeliver
  split
  · split
    · split <;> rfl
    · rfl
  · split
    · rfl
    · rfl
    · split <;> rfl

/-- The program counter of the main thread never goes back. -/
theorem parentNext_pc_mono (p : Parent) (e : PEv) : p.pc ≤ (parentNext p e).pc := by
  unfold parentNext
  split
  · cases e with
    | step =>
      rcases parentStep_cases p with h | ⟨a, _, _, h⟩
      · simp only; rw [h]
      · simp only; rw [h, applyAct_pc]; simp
    | thread => simp only; rw [threadStep_pc]
    | deliver s => simp only; rw [parentDeliver_pc]
  · exact le_refl _

theorem parentRun_pc_mono (evs : List PEv) : ∀ p : Parent, p.pc ≤ (parentRun p evs).pc := by
  induction evs with
  | nil => intro p; exact le_refl _
  | cons e evs ih =>
    intro p
    exact le_trans (parentNext_pc_mono p e) (ih _)

/-- Before line 102 is done, a step of the running main thread executes the
next action and the parent keeps running. -/
theorem parentStep_early {u : Bool} {pid ret : Int} {p : Parent}
    (h : ParentInv u pid ret p) (hpc : p.pc < 3) :
    (parentStep p).pc = p.pc + 1 ∧ (parentStep p).status = p.status := by
  have h1 := h.cfg_u
  have h2 := h.cfg_pid
  have h3 := h.cfg_ret
  have : p.pc = 0 ∨ p.pc = 1 ∨ p.pc = 2 := by omega
  rcases this with e | e | e <;>
    simp [parentStep, h1, h2, h3, e, parentProgram, Provider.start, applyAct]

/-- Without a signal, the main thread that takes enough steps gets past the
construction of the provider (lines 99-102). -/
theorem parent_reaches_ctor {u : Bool} {pid ret : Int} (evs : List PEv) :
    ∀ p : Parent, ParentInv u pid ret p → p.status = PStatus.running →
      (∀ s, PEv.deliver s ∉ evs) → 3 ≤ p.pc + evs.count PEv.step →
      3 ≤ (parentRun p evs).pc := by
  induction evs with
  | nil => intro p _ _ _ h; simpa [parentRun] using h
  | cons e evs ih =>
    intro p hinv hr hnd hc
    by_cases hpc : 3 ≤ p.pc
    · exact le_trans hpc (parentRun_pc_mono _ p)
    · have hnd' : ∀ s, PEv.deliver s ∉ evs := fun s hs => hnd s (by simp [hs])
      have hinv' := parentNext_inv e hinv
      simp only [parentRun, List.foldl_cons]
      cases e with
      | step =>
        have hs := parentStep_early hinv (by omega)
        have hn : parentNext p PEv.step = parentStep p := by simp [parentNext, hr]
        rw [hn] at hinv' ⊢
        apply ih _ hinv' (by rw [hs.2]; exact hr) hnd'
        rw [hs.1]
        simp at hc
        omega
      | thread =>
        have hn : parentNext p PEv.thread = threadStep p := by simp [parentNext, hr]
        rw [hn] at hinv' ⊢
        apply ih _ hinv' (by rw [threadStep_status]; exact hr) hnd'
        rw [threadStep_pc]
        simp at hc
        omega
      | deliver s => exact absurd (by simp) (hnd s)

/-- The providers constructed so far in a run of the parent: none before line
102 is done, exactly the selected one from then on. -/
theorem parent_ctors (disp : Nat → Disp) (u : Bool) (pid ret : Int) (evs : List PEv) :
    (parentRun (forkParent disp u pid ret) evs).trace.filter isProviderCtor =
      if 3 ≤ (parentRun (forkParent disp u pid ret) evs).pc then
        [Act.providerCtor (providerKind u) pid]
      else [] := by
  have hinv := parentRun_inv u pid ret evs (parentInv_fork disp u pid ret)
  rw [hinv.ctors]
  generalize (parentRun (forkParent disp u pid ret) evs).pc = k
  by_cases hk : 3 ≤ k
  · rw [if_pos hk]
    obtain ⟨j, rfl⟩ : ∃ j, k = j + 3 := ⟨k - 3, by omega⟩
    have : ∀ l : List Act, (∀ a ∈ l, isProviderCtor a = false) →
        (l.take j).filter isProviderCtor = [] := by
      intro l hl
      rw [List.filter_eq_nil_iff]
      intro a ha
      simp [hl a (List.mem_of_mem_take ha)]
    simp only [parentProgram, Provider.start, List.cons_append, List.nil_append,
      List.take_succ_cons, List.filter, isProviderCtor]
    rw [show List.filter isProviderCtor (List.take j _) = [] from this _ (by simp [isProviderCtor])]
  · rw [if_neg hk]
    have : k = 0 ∨ k = 1 ∨ k = 2 := by omega
    rcases this with e | e | e <;>
      simp [e, parentProgram, Provider.start, isProviderCtor, List.filter]


/-! ## The child: main results -/

/-- C2, as stated, fails: with a handler for `SIGUSR2` inherited at the fork,
the child waits in `sigsuspend` after three statements; a `SIGUSR2` then makes
`sigsuspend` return, the child does not block again, and its next two
statements are the `sigprocmask` of line 88 and `execvp`, although no `SIGUSR1`
was ever sent or caught. -/
theorem C2_other_signal_releases_child :
    (childRun (forkChild envUsr2 true ["ls"]) [Ev.step, Ev.step, Ev.step]).pc
        = ChildPc.waiting ∧
    (childRun (forkChild envUsr2 true ["ls"])
        [Ev.step, Ev.step, Ev.step, Ev.send SIGUSR2]).pc = ChildPc.atSigprocmask ∧
    (childRun (forkChild envUsr2 true ["ls"])
        [Ev.step, Ev.step, Ev.step, Ev.send SIGUSR2, Ev.step, Ev.step]).trace =
      [Act.sigaction SIGUSR1, Act.logInfo "Program process going to sleep", Act.sigsuspend,
       Act.caught SIGUSR2, Act.sigRestore, Act.execvp "ls" ["ls"]] := by
  decide

/-- C2, amended: the child calls `sigsuspend` once and never waits again after
it returned, whatever signal ended the wait: from line 88 its next two
statements are `sigprocmask` and `execvp` (unless a signal kills it); and when
no signal other than `SIGUSR1` has a handler inherited at the fork, then for
every schedule of signals every `execvp` in the trace comes after a caught
`SIGUSR1`. -/
theorem C2_execvp_after_a_caught_signal (env : SigEnv) (execOk : Bool) (argv : List String)
    (evs : List Ev) :
    (∀ evs', (childRun (forkChild env execOk argv) evs).pc.past = true →
        (childRun (forkChild env execOk argv) (evs ++ evs')).pc ≠ ChildPc.waiting) ∧
    ((childRun (forkChild env execOk argv) evs).pc = ChildPc.atSigprocmask →
        (childRun (forkChild env execOk argv) (evs ++ [Ev.step, Ev.step])).pc = ChildPc.killed ∨
        Act.execvp (argv.headD "") argv ∈
          (childRun (forkChild env execOk argv) (evs ++ [Ev.step, Ev.step])).trace) ∧
    ((∀ s, s ≠ SIGUSR1 → env.disp s ≠ Disp.handler) →
      Guarded (fun a => a = Act.caught SIGUSR1) (fun a => ∃ f v, a = Act.execvp f v)
        (childRun (forkChild env execOk argv) evs).trace) := by
  have hinv := childRun_inv env argv evs (childInv_fork env execOk argv)
  refine ⟨?_, ?_, ?_⟩
  · intro evs' hp hw
    rw [childRun_append] at hw
    rcases childRun_past evs' _ (Or.inl hp) with h1 | h1
    · rw [hw] at h1; cases h1
    · rw [hw] at h1; cases h1
  · intro hp
    rw [childRun_append]
    have := child_proceeds _ hp
    rw [hinv.args] at this
    exact this
  · intro h l1 x l2 e hx
    obtain ⟨y, hy, s, hs⟩ := hinv.order l1 x l2 e hx
    subst hs
    have hmem : Act.caught s ∈ (childRun (forkChild env execOk argv) evs).trace := by
      rw [e]; simp [hy]
    rcases hinv.caught_ok s hmem with h1 | h1
    · subst h1
      exact ⟨_, hy, rfl⟩
    · by_cases hs : s = SIGUSR1
      · subst hs
        exact ⟨_, hy, rfl⟩
      · exact absurd h1 (h s hs)

/-- C2, amended, at a concrete input: default dispositions, the resume signal
sent while the child waits. -/
theorem C2_execvp_after_a_caught_signal_witness :
    (∀ s, s ≠ SIGUSR1 → envPlain.disp s ≠ Disp.handler) ∧
    Guarded (fun a => a = Act.caught SIGUSR1) (fun a => ∃ f v, a = Act.execvp f v)
      (childRun (forkChild envPlain true ["ls"])
        [Ev.step, Ev.step, Ev.step, Ev.send SIGUSR1, Ev.step, Ev.step]).trace :=
  ⟨fun _ _ => by simp [envPlain],
   (C2_execvp_after_a_caught_signal envPlain true ["ls"]
      [Ev.step, Ev.step, Ev.step, Ev.send SIGUSR1, Ev.step, Ev.step]).2.2
      (fun _ _ => by simp [envPlain])⟩

/-- C10: in every state the child reaches, whatever the schedule of signals:
while it has not called `sigsuspend`, `SIGUSR1` is blocked, has not been caught,
and is pending if it was sent; when it calls `sigsuspend` and from then on the
handler of line 83 is installed; `SIGUSR1` never terminates it.  When `SIGUSR1`
is not blocked in the original mask, the child is never left waiting in
`sigsuspend` once a `SIGUSR1` was sent, and a `SIGUSR1` sent after any number
`a` of child statements leads to `execvp` within five more steps.  When
`SIGUSR1` is blocked in the original mask, it stays blocked while the child
runs, is never caught, and no schedule of steps and `SIGUSR1`s gets the child
past `sigsuspend`. -/
theorem C10_resume_signal_is_held_until_sigsuspend (env : SigEnv) (execOk : Bool)
    (argv : List String) :
    (∀ evs : List Ev,
      ((childRun (forkChild env execOk argv) evs).pc.early = true →
        (childRun (forkChild env execOk argv) evs).blocked SIGUSR1 = true ∧
        Act.caught SIGUSR1 ∉ (childRun (forkChild env execOk argv) evs).trace ∧
        (Ev.send SIGUSR1 ∈ evs →
          SIGUSR1 ∈ (childRun (forkChild env execOk argv) evs).pending)) ∧
      ((childRun (forkChild env execOk argv) evs).pc = ChildPc.atSigsuspend ∨
        (childRun (forkChild env execOk argv) evs).pc = ChildPc.waiting →
        (childRun (forkChild env execOk argv) evs).effDisp SIGUSR1 = Disp.handler) ∧
      Act.killedBy SIGUSR1 ∉ (childRun (forkChild env execOk argv) evs).trace) ∧
    (SIGUSR1 ∉ env.mask →
      (∀ evs : List Ev, (childRun (forkChild env execOk argv) evs).pc = ChildPc.waiting →
        Ev.send SIGUSR1 ∉ evs) ∧
      (∀ a : Nat, Act.execvp (argv.headD "") argv ∈
        (childRun (forkChild env execOk argv)
          (List.replicate a Ev.step ++ Ev.send SIGUSR1 :: List.replicate 5 Ev.step)).trace)) ∧
    (SIGUSR1 ∈ env.mask →
      ∀ evs : List Ev,
        ((childRun (forkChild env execOk argv) evs).live = true →
          (childRun (forkChild env execOk argv) evs).blocked SIGUSR1 = true) ∧
        Act.caught SIGUSR1 ∉ (childRun (forkChild env execOk argv) evs).trace ∧
        ((∀ e ∈ evs, e = Ev.step ∨ e = Ev.send SIGUSR1) →
          (childRun (forkChild env execOk argv) evs).pc.past = false ∧
          ∀ f v, Act.execvp f v ∉ (childRun (forkChild env execOk argv) evs).trace)) := by
  refine ⟨?_, ?_, ?_⟩
  · intro evs
    have hinv := childRun_inv env argv evs (childInv_fork env execOk argv)
    have hhist := child_history env execOk argv evs
    refine ⟨?_, ?_, hinv.not_killed⟩
    · intro he
      refine ⟨?_, hinv.early_quiet he, hhist.1 he⟩
      have hm : (childRun (forkChild env execOk argv) evs).mask = SIGUSR1 :: env.mask := by
        apply hinv.mask_ok
        revert he
        cases (childRun (forkChild env execOk argv) evs).pc <;> simp [ChildPc.early, expectedMask]
      simp [Child.blocked, hm, usr1_blockable]
    · intro hp
      simp only [Child.effDisp, usr1_blockable]
      apply hinv.handler_ok
      · rcases hp with hp | hp <;> simp [hp]
      · rcases hp with hp | hp <;> simp [Child.live, hp]
  · intro hm
    exact ⟨fun evs => (child_history env execOk argv evs).2 hm,
      fun a => child_resumes env execOk argv a hm⟩
  · intro hm evs
    have hinv := childRun_inv env argv evs (childInv_fork env execOk argv)
    have hnc : Act.caught SIGUSR1 ∉ (childRun (forkChild env execOk argv) evs).trace :=
      fun hc => hinv.usr1_caught hc hm
    refine ⟨?_, hnc, ?_⟩
    · intro hl
      obtain ⟨m, hm1, hm2⟩ := live_expectedMask env.mask _ hl
      have := hinv.mask_ok m hm1
      simp [Child.blocked, this, hm2 _ hm, usr1_blockable]
    · intro honly
      have hno : ¬ ∃ s, Act.caught s ∈ (childRun (forkChild env execOk argv) evs).trace := by
        rintro ⟨s, hs⟩
        have hsent := (child_sent env execOk argv evs).2 s hs
        rcases honly _ hsent with h1 | h1
        · cases h1
        · injection h1 with h1
          subst h1
          exact hnc hs
      constructor
      · by_contra hp
        exact hno (hinv.woke (Or.inl (by simpa using hp)))
      · intro f v hfv
        exact hno (hinv.woke (Or.inr ⟨f, v, hfv⟩))

/-- C10 at concrete inputs: with nothing blocked originally, a `SIGUSR1` sent
before the child has executed anything still leads to `execvp`; with `SIGUSR1`
blocked originally, the child that is sent `SIGUSR1` never gets past
`sigsuspend`. -/
theorem C10_resume_signal_is_held_until_sigsuspend_witness :
    (SIGUSR1 ∉ envPlain.mask ∧
      Act.execvp "ls" ["ls"] ∈
        (childRun (forkChild envPlain true ["ls"])
          (List.replicate 0 Ev.step ++ Ev.send SIGUSR1 :: List.replicate 5 Ev.step)).trace) ∧
    (SIGUSR1 ∈ envBlocked.mask ∧
      (∀ e ∈ [Ev.step, Ev.step, Ev.step, Ev.send SIGUSR1, Ev.step, Ev.step],
        e = Ev.step ∨ e = Ev.send SIGUSR1) ∧
      (childRun (forkChild envBlocked true ["ls"])
        [Ev.step, Ev.step, Ev.step, Ev.send SIGUSR1, Ev.step, Ev.step]).pc.past = false) :=
  ⟨⟨by decide,
    ((C10_resume_signal_is_held_until_sigsuspend envPlain true ["ls"]).2.1 (by decide)).2 0⟩,
   ⟨by decide, by decide,
    ((((C10_resume_signal_is_held_until_sigsuspend envBlocked true ["ls"]).2.2 (by decide))
      [Ev.step, Ev.step, Ev.step, Ev.send SIGUSR1, Ev.step, Ev.step]).2.2 (by decide)).1⟩⟩

/-- C7: when the arguments after the program name are options followed by a
command `c` and anything `rest`, `main` reaches `fork()` with `argv` pointing
at `c :: rest` and with `use_sysdig` decided by the options alone; every
`execvp` of the child, whatever the schedule, is `execvp(c, c :: rest)`, and
the resumed child does call it. -/
theorem C7_command_is_passed_verbatim (defaultLogs : String) (argv : List String)
    (opts : List Opt) (c : String) (rest : List String)
    (hargs : argv.drop 1 = renderOpts opts ++ c :: rest) (hc : isCommand c = true) :
    main defaultLogs argv =
      Start.forked
        [Act.createLogger (logsPath defaultLogs opts), Act.setDefaultLogger, Act.setPattern,
         Act.logInfo "Starting debugger execution", Act.sigBlock SIGUSR1, Act.fork]
        (decide (Opt.sysdig ∈ opts)) (c :: rest) ∧
    (∀ (env : SigEnv) (execOk : Bool) (evs : List Ev) (f : String) (v : List String),
      Act.execvp f v ∈ (childRun (forkChild env execOk (c :: rest)) evs).trace →
        f = c ∧ v = c :: rest) ∧
    (∀ (env : SigEnv) (execOk : Bool) (a : Nat), SIGUSR1 ∉ env.mask →
      Act.execvp c (c :: rest) ∈
        (childRun (forkChild env execOk (c :: rest))
          (List.replicate a Ev.step ++ Ev.send SIGUSR1 :: List.replicate 5 Ev.step)).trace) := by
  refine ⟨?_, ?_, ?_⟩
  · unfold main
    rw [hargs, scan_renderOpts, scan_command _ _ _ _ hc]
    simp
  · intro env execOk evs f v hfv
    have hinv := childRun_inv env (c :: rest) evs
      (childInv_fork env execOk (c :: rest))
    have := hinv.acts _ hfv
    simpa [childAct] using this
  · intro env execOk a hm
    have := child_resumes env execOk (c :: rest) a hm
    simpa using this

/-- C7 at the input `debugger ls --sysdig`: the command is `ls`, its argument
`--sysdig` is passed on, and `use_sysdig` stays false. -/
theorem C7_command_is_passed_verbatim_witness :
    (["debugger", "ls", "--sysdig"].drop 1 = renderOpts [] ++ "ls" :: ["--sysdig"]) ∧
    isCommand "ls" = true ∧
    main "logs.txt" ["debugger", "ls", "--sysdig"] =
      Start.forked
        [Act.createLogger (logsPath "logs.txt" []), Act.setDefaultLogger, Act.setPattern,
         Act.logInfo "Starting debugger execution", Act.sigBlock SIGUSR1, Act.fork]
        (decide (Opt.sysdig ∈ ([] : List Opt))) ("ls" :: ["--sysdig"]) :=
  ⟨by decide, by decide,
   (C7_command_is_passed_verbatim "logs.txt" ["debugger", "ls", "--sysdig"] [] "ls"
      ["--sysdig"] (by decide) (by decide)).1⟩


/-! ## The option scan: main results -/

/-- C4: when the options end in `-logp` with no value after it, `main` does
not print the usage text and return 1: line 53 builds a `std::string` from the
null pointer that ends `argv`, which is undefined behaviour, before the check
of lines 38-42 is reached again. -/
theorem C4_logp_without_value_is_undefined (defaultLogs prog : String) (opts : List Opt) :
    main defaultLogs (prog :: (renderOpts opts ++ ["-logp"])) =
      Start.undefinedBehaviour [] := by
  unfold main
  simp only [List.drop_succ_cons, List.drop_zero]
  rw [scan_renderOpts, scan_logp_last]

/-- When the arguments after the program name are options followed by
nothing, by an empty string, or by an argument that starts with `-` and is not
an option, `main` returns 1, the last thing it did is to print the usage text
to standard error, and all it did is to write to standard error. -/
theorem argument_error_exits_1 (defaultLogs : String) (argv : List String)
    (opts : List Opt) (tail : List String) (hargs : argv.drop 1 = renderOpts opts ++ tail)
    (herr : tail = [] ∨ ∃ a rest, tail = a :: rest ∧ (a = "" ∨ isUnknown a = true)) :
    ∃ out, main defaultLogs argv = Start.exited out 1 ∧
      (out = print_usage ∨
        ∃ a, out = Act.stderr ("Unknown argument " ++ a ++ "\n") :: print_usage) ∧
      out.getLast? = some (Act.stderr usageText) ∧
      ∀ x ∈ out, ∃ text, x = Act.stderr text := by
  unfold main
  rw [hargs, scan_renderOpts]
  rcases herr with h | ⟨a, rest, h, ha | ha⟩
  · subst h
    rw [scan_nil]
    exact ⟨print_usage, rfl, Or.inl rfl, rfl, by simp [print_usage]⟩
  · subst h; subst ha
    rw [scan_empty]
    exact ⟨print_usage, rfl, Or.inl rfl, rfl, by simp [print_usage]⟩
  · subst h
    rw [scan_unknown _ _ _ _ ha]
    exact ⟨_, rfl, Or.inr ⟨a, rfl⟩, rfl, by simp [print_usage]⟩

/-- The input `debugger --bogus`: usage text last, return 1, only writes to
standard error. -/
theorem argument_error_exits_1_example :
    (["debugger", "--bogus"].drop 1 = renderOpts [] ++ ["--bogus"]) ∧
    (∃ a rest, ["--bogus"] = a :: rest ∧ (a = "" ∨ isUnknown a = true)) ∧
    ∃ out, main "logs.txt" ["debugger", "--bogus"] = Start.exited out 1 ∧
      (out = print_usage ∨
        ∃ a, out = Act.stderr ("Unknown argument " ++ a ++ "\n") :: print_usage) ∧
      out.getLast? = some (Act.stderr usageText) ∧
      ∀ x ∈ out, ∃ text, x = Act.stderr text :=
  ⟨by decide, ⟨"--bogus", [], rfl, Or.inr (by decide)⟩,
   argument_error_exits_1 "logs.txt" ["debugger", "--bogus"] [] ["--bogus"] (by decide)
     (Or.inr ⟨"--bogus", [], rfl, Or.inr (by decide)⟩)⟩

/-- C5: the arguments `-logp` and `--sysdig -logp` run out with no command, yet
`main` neither prints the usage text nor returns 1: line 53 builds a
`std::string` from the null pointer that ends `argv` (undefined behaviour),
and nothing has been written to standard error. -/
theorem C5_dangling_logp_is_undefined :
    main "logs.txt" ["debugger", "-logp"] = Start.undefinedBehaviour [] ∧
    main "logs.txt" ["debugger", "--sysdig", "-logp"] = Start.undefinedBehaviour [] := by
  decide

/-- C6: when the arguments after the program name are options followed by
`--help` (and anything after it), all `main` does is to print the usage text,
and it returns 0. -/
theorem C6_help_prints_usage_and_exits_0 (defaultLogs : String) (argv : List String)
    (opts : List Opt) (rest : List String)
    (hargs : argv.drop 1 = renderOpts opts ++ "--help" :: rest) :
    main defaultLogs argv = Start.exited [Act.stderr usageText] 0 := by
  unfold main
  rw [hargs, scan_renderOpts, scan_help]
  rfl

/-- C6 at the input `debugger --sysdig -logp out.txt --help ls`. -/
theorem C6_help_prints_usage_and_exits_0_witness :
    (["debugger", "--sysdig", "-logp", "out.txt", "--help", "ls"].drop 1 =
      renderOpts [Opt.sysdig, Opt.logp "out.txt"] ++ "--help" :: ["ls"]) ∧
    main "logs.txt" ["debugger", "--sysdig", "-logp", "out.txt", "--help", "ls"] =
      Start.exited [Act.stderr usageText] 0 :=
  ⟨by decide,
   C6_help_prints_usage_and_exits_0 "logs.txt"
     ["debugger", "--sysdig", "-logp", "out.txt", "--help", "ls"]
     [Opt.sysdig, Opt.logp "out.txt"] ["ls"] (by decide)⟩


/-! ## The parent: main results -/

theorem main_forked (defaultLogs : String) (argv : List String) (out : List Act)
    (u : Bool) (cmd : List String) (h : main defaultLogs argv = Start.forked out u cmd) :
    ∃ l, scan false defaultLogs (argv.drop 1) = Scan.command u l cmd ∧
      out = [Act.createLogger l, Act.setDefaultLogger, Act.setPattern,
        Act.logInfo "Starting debugger execution", Act.sigBlock SIGUSR1, Act.fork] := by
  unfold main at h
  split at h
  · cases h
  · cases h
  · cases h
  · cases h
  · rename_i u' l cmd' hs
    injection h with h1 h2 h3
    subst h1; subst h2; subst h3
    exact ⟨l, hs, rfl⟩

/-- C1: on a run that gets past the option scan, nothing `main` does up to
`fork()` can release the child; after the fork, for every schedule of the
parent, every resume signal, every entry into `Provider::start` and every
entry into `Consumer::start` comes after the construction of the selected
provider with the pid of the child; and a parent that returns has sent the
resume signal `SIGUSR1` to that pid, after that construction. -/
theorem C1_attach_before_release (defaultLogs : String) (argv : List String)
    (out : List Act) (u : Bool) (cmd : List String)
    (hstart : main defaultLogs argv = Start.forked out u cmd)
    (disp : Nat → Disp) (pid ret : Int) (evs : List PEv) :
    (∀ a ∈ out, ¬ isRelease a) ∧
    Guarded (fun a => a = Act.providerCtor (providerKind u) pid) isRelease
      (parentRun (forkParent disp u pid ret) evs).trace ∧
    (∀ r, (parentRun (forkParent disp u pid ret) evs).status = PStatus.returned r →
      ∃ l1 l2, (parentRun (forkParent disp u pid ret) evs).trace =
          l1 ++ Act.kill pid SIGUSR1 :: l2 ∧
        Act.providerCtor (providerKind u) pid ∈ l1) := by
  have hinv := parentRun_inv u pid ret evs
    (parentInv_fork disp u pid ret)
  obtain ⟨l, _, hout⟩ := main_forked _ _ _ _ _ hstart
  refine ⟨?_, hinv.release, ?_⟩
  · subst hout
    simp [isRelease]
  · intro r hr
    have hpc : (parentRun (forkParent disp u pid ret) evs).pc = 14 := by
      rcases hinv.status_ok with h | ⟨s, h⟩ | h | ⟨_, h⟩
      · rw [h] at hr; cases hr
      · rw [h] at hr; cases hr
      · rw [h] at hr; cases hr
      · exact h
    have hk : Act.kill pid SIGUSR1 ∈ (parentRun (forkParent disp u pid ret) evs).trace := by
      apply hinv.main_sub.subset
      rw [hpc]
      simp [parentProgram, Provider.start]
    obtain ⟨l1, l2, e⟩ := List.append_of_mem hk
    refine ⟨l1, l2, e, ?_⟩
    obtain ⟨y, hy, hy'⟩ := hinv.release l1 _ l2 e (by simp [isRelease])
    subst hy'
    exact hy

/-- C1 at the input `debugger ls`, the parent running to its end. -/
theorem C1_attach_before_release_witness :
    main "logs.txt" ["debugger", "ls"] =
      Start.forked
        [Act.createLogger "logs.txt", Act.setDefaultLogger, Act.setPattern,
         Act.logInfo "Starting debugger execution", Act.sigBlock SIGUSR1, Act.fork]
        false ["ls"] ∧
    (parentRun (forkParent envPlain.disp false 4242 0)
      (List.replicate 7 PEv.step ++ [PEv.thread, PEv.thread] ++
        List.replicate 7 PEv.step)).status = PStatus.returned 0 ∧
    Guarded (fun a => a = Act.providerCtor (providerKind false) 4242) isRelease
      (parentRun (forkParent envPlain.disp false 4242 0)
        (List.replicate 7 PEv.step ++ [PEv.thread, PEv.thread] ++
          List.replicate 7 PEv.step)).trace :=
  ⟨by decide, by decide,
   (C1_attach_before_release "logs.txt" ["debugger", "ls"]
      [Act.createLogger "logs.txt", Act.setDefaultLogger, Act.setPattern,
       Act.logInfo "Starting debugger execution", Act.sigBlock SIGUSR1, Act.fork]
      false ["ls"] (by decide)
      envPlain.disp 4242 0
      (List.replicate 7 PEv.step ++ [PEv.thread, PEv.thread] ++ List.replicate 7 PEv.step)).2.1⟩

/-- C3: when `main` reaches `fork()`, the arguments after the program name are
options followed by a command, and `use_sysdig` says whether `--sysdig` is one
of the options.  Nothing up to `fork()` constructs a provider, the child
constructs none, the program of the parent constructs exactly one, and a parent
that returns has constructed exactly one: a `SysdigProvider` if `use_sysdig`
holds and a `BPFProvider` otherwise.  On every run of the parent, whether it
returns, is killed, waits in `join` for ever or hits undefined behaviour, the
providers constructed so far are none while lines 99-102 are not done and
exactly that one from then on; and on every run whose main thread takes its
first three steps before any signal is delivered, exactly that one provider is
constructed, whatever happens afterwards. -/
theorem C3_exactly_one_provider (defaultLogs : String) (argv : List String)
    (out : List Act) (u : Bool) (cmd : List String)
    (hstart : main defaultLogs argv = Start.forked out u cmd) :
    (∃ opts c rest, argv.drop 1 = renderOpts opts ++ c :: rest ∧ isCommand c = true ∧
      cmd = c :: rest ∧ u = decide (Opt.sysdig ∈ opts)) ∧
    out.filter isProviderCtor = [] ∧
    (∀ (env : SigEnv) (execOk : Bool) (evs : List Ev),
      (childRun (forkChild env execOk cmd) evs).trace.filter isProviderCtor = []) ∧
    (∀ pid ret : Int, (parentProgram u pid ret).filter isProviderCtor =
      [Act.providerCtor (if u then ProviderKind.sysdig else ProviderKind.bpf) pid]) ∧
    (∀ (disp : Nat → Disp) (pid ret : Int) (evs : List PEv) (r : Int),
      (parentRun (forkParent disp u pid ret) evs).status = PStatus.returned r →
      (parentRun (forkParent disp u pid ret) evs).trace.filter isProviderCtor =
        [Act.providerCtor (if u then ProviderKind.sysdig else ProviderKind.bpf) pid]) ∧
    (∀ (disp : Nat → Disp) (pid ret : Int) (evs : List PEv),
      (parentRun (forkParent disp u pid ret) evs).trace.filter isProviderCtor =
        if 3 ≤ (parentRun (forkParent disp u pid ret) evs).pc then
          [Act.providerCtor (if u then ProviderKind.sysdig else ProviderKind.bpf) pid]
        else []) ∧
    (∀ (disp : Nat → Disp) (pid ret : Int) (evs evs' : List PEv),
      (∀ s, PEv.deliver s ∉ evs) → 3 ≤ evs.count PEv.step →
      (parentRun (forkParent disp u pid ret) (evs ++ evs')).trace.filter isProviderCtor =
        [Act.providerCtor (if u then ProviderKind.sysdig else ProviderKind.bpf) pid]) := by
  obtain ⟨l, hs, hout⟩ := main_forked _ _ _ _ _ hstart
  have hprog : ∀ pid ret : Int, (parentProgram u pid ret).filter isProviderCtor =
      [Act.providerCtor (if u then ProviderKind.sysdig else ProviderKind.bpf) pid] := by
    intro pid ret
    simp [parentProgram, Provider.start, isProviderCtor, providerKind, List.filter]
  have hkind : providerKind u = if u then ProviderKind.sysdig else ProviderKind.bpf := rfl
  refine ⟨?_, ?_, ?_, hprog, ?_, ?_, ?_⟩
  · obtain ⟨opts, c, rest, e1, e2, e3, e4, _⟩ :=
      scan_command_shape _ _ _ _ _ _ _ (le_refl _) hs
    exact ⟨opts, c, rest, e1, e2, e3, by simpa using e4⟩
  · subst hout
    simp [isProviderCtor, List.filter]
  · intro env execOk evs
    have hinv := childRun_inv env cmd evs (childInv_fork env execOk cmd)
    rw [List.filter_eq_nil_iff]
    intro a ha
    have := hinv.acts a ha
    rcases this with h | h | h | h | h | h | ⟨s, h⟩ | ⟨s, h⟩ <;> subst h <;> simp [isProviderCtor]
  · intro disp pid ret evs r hr
    have hinv := parentRun_inv u pid ret evs
      (parentInv_fork disp u pid ret)
    have hpc : (parentRun (forkParent disp u pid ret) evs).pc = 14 := by
      rcases hinv.status_ok with h | ⟨s, h⟩ | h | ⟨_, h⟩
      · rw [h] at hr; cases hr
      · rw [h] at hr; cases hr
      · rw [h] at hr; cases hr
      · exact h
    rw [hinv.ctors, hpc, ← hprog pid ret]
    congr 1
  · intro disp pid ret evs
    rw [← hkind]
    exact parent_ctors disp u pid ret evs
  · intro disp pid ret evs evs' hnd hc
    have h3 : 3 ≤ (parentRun (forkParent disp u pid ret) evs).pc :=
      parent_reaches_ctor evs _ (parentInv_fork disp u pid ret) rfl hnd
        (by simpa [forkParent] using hc)
    have h3' : 3 ≤ (parentRun (forkParent disp u pid ret) (evs ++ evs')).pc := by
      rw [parentRun_append]
      exact le_trans h3 (parentRun_pc_mono _ _)
    rw [parent_ctors, if_pos h3', hkind]

/-- C3 at the input `debugger -logp --sysdig --sysdig ls`: the first `--sysdig`
is the value of `-logp`, the second one is an option; the parent is killed by a
`SIGINT` right after line 100 and has constructed exactly a `SysdigProvider`. -/
theorem C3_exactly_one_provider_witness :
    main "logs.txt" ["debugger", "-logp", "--sysdig", "--sysdig", "ls"] =
      Start.forked
        [Act.createLogger "--sysdig", Act.setDefaultLogger, Act.setPattern,
         Act.logInfo "Starting debugger execution", Act.sigBlock SIGUSR1, Act.fork]
        true ["ls"] ∧
    (∀ s, PEv.deliver s ∉ [PEv.step, PEv.step, PEv.step]) ∧
    3 ≤ [PEv.step, PEv.step, PEv.step].count PEv.step ∧
    (parentRun (forkParent envPlain.disp true 4242 0)
      ([PEv.step, PEv.step, PEv.step] ++ [PEv.deliver SIGINT])).status =
        PStatus.killed SIGINT ∧
    (parentRun (forkParent envPlain.disp true 4242 0)
      ([PEv.step, PEv.step, PEv.step] ++ [PEv.deliver SIGINT])).trace.filter isProviderCtor =
        [Act.providerCtor (if true then ProviderKind.sysdig else ProviderKind.bpf) 4242] :=
  ⟨by decide, fun s => by simp, by decide, by decide,
   (C3_exactly_one_provider "logs.txt" ["debugger", "-logp", "--sysdig", "--sysdig", "ls"]
      [Act.createLogger "--sysdig", Act.setDefaultLogger, Act.setPattern,
       Act.logInfo "Starting debugger execution", Act.sigBlock SIGUSR1, Act.fork]
      true ["ls"] (by decide)).2.2.2.2.2.2 envPlain.disp 4242 0
      [PEv.step, PEv.step, PEv.step] [PEv.deliver SIGINT] (fun s => by simp) (by decide)⟩

/-- C8, as stated, fails: on a run without any signal the parent returns 0
after `Provider::start` returned, and `consumer.stop()` has never been called. -/
theorem C8_consumer_stop_is_not_called :
    (parentRun (forkParent envPlain.disp false 4242 0)
      (List.replicate 7 PEv.step ++ [PEv.thread, PEv.thread] ++
        List.replicate 7 PEv.step)).status = PStatus.returned 0 ∧
    Act.consumerStop ∉
      (parentRun (forkParent envPlain.disp false 4242 0)
        (List.replicate 7 PEv.step ++ [PEv.thread, PEv.thread] ++
          List.replicate 7 PEv.step)).trace := by
  decide

/-- C8, amended: on every run of the parent that returns, the return value is
what `Provider::start` returned; after that return `main` calls
`provider_ptr->stop()`, then joins the consumer thread, then returns, and the
return is its last action.  `main` itself never calls `consumer.stop()`: it is
not among the actions of its program, and every call of it in a run comes after
a caught signal (it is made by the exit handler). -/
theorem C8_provider_stopped_and_thread_joined (disp : Nat → Disp) (u : Bool) (pid ret : Int)
    (evs : List PEv) (r : Int)
    (hr : (parentRun (forkParent disp u pid ret) evs).status = PStatus.returned r) :
    r = ret ∧
    [Act.providerStartReturned ret, Act.providerStop, Act.join, Act.ret ret].Sublist
      (parentRun (forkParent disp u pid ret) evs).trace ∧
    (parentRun (forkParent disp u pid ret) evs).trace.getLast? = some (Act.ret ret) ∧
    Act.consumerStop ∉ parentProgram u pid ret ∧
    Guarded (fun a => ∃ s, a = Act.caught s) (fun a => a = Act.consumerStop)
      (parentRun (forkParent disp u pid ret) evs).trace := by
  have hinv := parentRun_inv u pid ret evs
    (parentInv_fork disp u pid ret)
  have hpc : (parentRun (forkParent disp u pid ret) evs).pc = 14 ∧ r = ret := by
    rcases hinv.status_ok with h | ⟨s, h⟩ | h | ⟨h, h'⟩
    · rw [h] at hr; cases hr
    · rw [h] at hr; cases hr
    · rw [h] at hr; cases hr
    · rw [h] at hr
      injection hr with hr
      exact ⟨h', hr.symm⟩
  refine ⟨hpc.2, ?_, hinv.last hpc.1, ?_, hinv.stops⟩
  · refine List.Sublist.trans ?_ hinv.main_sub
    rw [hpc.1]
    simp only [parentProgram, Provider.start, List.cons_append, List.nil_append, List.take]
    exact .cons _ (.cons _ (.cons _ (.cons _ (.cons _ (.cons _ (.cons _ (.cons _ (.cons _
      (.cons₂ _ (.cons₂ _ (.cons₂ _ (.cons _ (.cons₂ _ .slnil)))))))))))))
  · simp [parentProgram, Provider.start]

/-- C8, amended, at a concrete run: no signal, the thread finishing before the
join. -/
theorem C8_provider_stopped_and_thread_joined_witness :
    (parentRun (forkParent envPlain.disp false 4242 0)
      (List.replicate 7 PEv.step ++ [PEv.thread, PEv.thread] ++
        List.replicate 7 PEv.step)).status = PStatus.returned 0 ∧
    [Act.providerStartReturned 0, Act.providerStop, Act.join, Act.ret 0].Sublist
      (parentRun (forkParent envPlain.disp false 4242 0)
        (List.replicate 7 PEv.step ++ [PEv.thread, PEv.thread] ++
          List.replicate 7 PEv.step)).trace :=
  ⟨by decide,
   (C8_provider_stopped_and_thread_joined envPlain.disp false 4242 0
      (List.replicate 7 PEv.step ++ [PEv.thread, PEv.thread] ++ List.replicate 7 PEv.step)
      0 (by decide)).2.1⟩

/-- After line 111 has been executed and as long as `delete provider_ptr` has
not, every delivery of `SIGINT` or `SIGTERM` to the running parent runs
`sig_handler`, which calls `consumer.stop()` and then `provider_ptr->stop()` on
the constructed, not yet deleted provider, and the parent keeps running. -/
theorem parent_stop_sequence (disp : Nat → Disp) (u : Bool) (pid ret : Int) (evs : List PEv)
    (s : Nat) (hs : s = SIGINT ∨ s = SIGTERM)
    (hpc : 6 ≤ (parentRun (forkParent disp u pid ret) evs).pc)
    (hpc' : (parentRun (forkParent disp u pid ret) evs).pc ≤ 12)
    (hr : (parentRun (forkParent disp u pid ret) evs).status = PStatus.running) :
    (parentRun (forkParent disp u pid ret) evs).providerLive = true ∧
    (parentRun (forkParent disp u pid ret) (evs ++ [PEv.deliver s])).status = PStatus.running ∧
    (parentRun (forkParent disp u pid ret) (evs ++ [PEv.deliver s])).trace =
      (parentRun (forkParent disp u pid ret) evs).trace ++
        [Act.caught s, Act.consumerStop, Act.providerStop] := by
  have hinv := parentRun_inv u pid ret evs (parentInv_fork disp u pid ret)
  rw [parentRun_append]
  generalize parentRun (forkParent disp u pid ret) evs = p at hinv hpc hpc' hr
  have hh : s ∈ p.handled := by
    rw [hinv.handled, if_pos hpc]
    rcases hs with h | h <;> simp [h]
  have he : p.exitHandler = true := by
    rw [hinv.exitH]; simp; omega
  have hl : p.providerLive = true := by
    rw [hinv.live]; simp; omega
  simp [parentRun, parentNext, hr, parentDeliver, hh, he, hl, exit_handler]

/-- C9: the handlers stay registered to the end of `main`.  On this run the
provider is deleted (line 124), then `SIGINT` is delivered before `main`
returns: `sig_handler` calls `consumer.stop()` and then `provider_ptr->stop()`
on the provider that has just been deleted. -/
theorem C9_stop_called_on_deleted_provider :
    (parentRun (forkParent envPlain.disp false 4242 0)
      (List.replicate 7 PEv.step ++ [PEv.thread, PEv.thread] ++
        List.replicate 6 PEv.step)).providerLive = false ∧
    (parentRun (forkParent envPlain.disp false 4242 0)
      (List.replicate 7 PEv.step ++ [PEv.thread, PEv.thread] ++
        List.replicate 6 PEv.step ++ [PEv.deliver SIGINT])).status =
      PStatus.deletedProviderUsed ∧
    (parentRun (forkParent envPlain.disp false 4242 0)
      (List.replicate 7 PEv.step ++ [PEv.thread, PEv.thread] ++
        List.replicate 6 PEv.step ++ [PEv.deliver SIGINT])).trace =
      [Act.sigRestore, Act.consumerCtor 4242, Act.providerCtor ProviderKind.bpf 4242,
       Act.assignExitHandler, Act.registerHandler SIGTERM, Act.registerHandler SIGINT,
       Act.threadSpawn, Act.consumerStart false, Act.consumerStartReturned,
       Act.providerStart, Act.kill 4242 SIGUSR1, Act.providerStartReturned 0,
       Act.providerStop, Act.join, Act.deleteProvider,
       Act.caught SIGINT, Act.consumerStop, Act.providerStop] := by
  decide


end Debugger
